import Mathlib

/-!
Verification development for the agent-did repository: a shallow embedding of
the identifier codec (base58 / did:key), the credential engine (JWT sign and
verify), the revocation subsystem (simple registry and bitstring status list),
and the key-rotation manager, with theorems settling the spec's claims.

Strings from the TypeScript sources are modelled as `List Char`, byte arrays
as `List Nat` (each entry < 256 where it matters), and fallible operations as
`Except String`.
-/

namespace AgentDid

/-! ## Revocation registry (src: RevocationRegistry in the acceptance-script copy
of src/revocation.ts) -/

structure RevocationEntry where
  credentialId : List Char
  issuer : List Char
  subject : List Char
  revokedAt : Int
  reason : Option (List Char)
deriving DecidableEq, Repr

structure RevocationList where
  version : Nat
  issuer : List Char
  lastUpdated : Int
  revoked : List RevocationEntry
deriving DecidableEq, Repr

/-- Model of `RevocationRegistry.revoke`: reject when the credential id is already in the
issuer's list (the source throws before any mutation or save), otherwise append
one entry and return the list that gets persisted. -/
def revoke (list : RevocationList) (credentialId issuerDid subjectDid : List Char)
    (reason : Option (List Char)) (now : Int) : Except (List Char) RevocationList :=
  match list.revoked.find? (fun r => r.credentialId == credentialId) with
  | some _ => .error ("Credential already revoked".toList)
  | none =>
      .ok { list with
              lastUpdated := now,
              revoked := list.revoked ++
                [{ credentialId := credentialId, issuer := issuerDid,
                   subject := subjectDid, revokedAt := now, reason := reason }] }

/-- Model of `RevocationRegistry.isRevoked`: scan the issuer's list for the credential id. -/
def isRevoked (list : RevocationList) (credentialId : List Char) : Bool :=
  list.revoked.any (fun r => r.credentialId == credentialId)

/-! ## Bitstring status list (src/unnamed/part_017, class BitstringStatusList).

The `Uint8Array` bit buffer is a `List Nat` of bytes; JavaScript's 32-bit
bitwise operators act on byte values < 256, so plain `Nat` bitwise operations
with an explicit 32-bit mask for the `~` complement are a faithful rendering. -/

/-- A fresh `BitstringStatusList` buffer: `new Uint8Array(Math.ceil(size / 8))`,
zero-filled. -/
def freshBitstring (size : Nat) : List Nat :=
  List.replicate ((size + 7) / 8) 0

/-- Model of `setBit`: `bitstring[byteIndex] |= 1 << bitIndex` (in-bounds case; the
source throws on an out-of-bounds index, which callers here always avoid). -/
def setBit (bits : List Nat) (index : Nat) : List Nat :=
  bits.set (index / 8) ((bits.getD (index / 8) 0) ||| (1 <<< (index % 8)))

/-- Model of `clearBit`: `bitstring[byteIndex] &= ~(1 << bitIndex)`; JavaScript evaluates
`~` on 32-bit integers, so the mask is the 32-bit complement of `1 << bitIndex`. -/
def clearBit (bits : List Nat) (index : Nat) : List Nat :=
  bits.set (index / 8) ((bits.getD (index / 8) 0) &&& ((2 ^ 32 - 1) ^^^ (1 <<< (index % 8))))

/-- Model of `getBit`: `(bitstring[byteIndex] & (1 << bitIndex)) !== 0`. -/
def getBit (bits : List Nat) (index : Nat) : Bool :=
  ((bits.getD (index / 8) 0) &&& (1 <<< (index % 8))) != 0

/-- Model of `getNextAvailableIndex`: linear scan for the first unset bit; the source
throws `Status list is full` when every bit is set. -/
def getNextAvailableIndex (bits : List Nat) : Except (List Char) Nat :=
  match (List.range (bits.length * 8)).find? (fun i => !getBit bits i) with
  | some i => .ok i
  | none => .error ("Status list is full".toList)

/-- Model of `BitstringStatusListManager.allocateEntry`, at the level of the stored bit
pattern: load the list, compute the next free index, save the list back, and
return the entry; no bit is set between load and save. -/
def allocateEntry (stored : List Nat) : Except (List Char) (Nat × List Nat) := do
  let index ← getNextAvailableIndex stored
  pure (index, stored)

/-! ## Standard base64 (Node `Buffer.toString('base64')` / `Buffer.from(_, 'base64')`),
used by `BitstringStatusList.encode`/`decode` around the gzip step. -/

def b64Alphabet : List Char :=
  "ABCDEFGHIJKLMNOPQRSTUVWXYZabcdefghijklmnopqrstuvwxyz0123456789+/".toList

def b64CharOf (v : Nat) : Char := b64Alphabet.getD v 'A'

def b64ValOf (c : Char) : Nat := b64Alphabet.indexOf c

/-- RFC 4648 base64 encoding with padding, three input bytes per four output
characters. -/
def b64EncodeStd : List Nat → List Char
  | [] => []
  | [a] => [b64CharOf (a / 4), b64CharOf (a % 4 * 16), '=', '=']
  | [a, b] => [b64CharOf (a / 4), b64CharOf (a % 4 * 16 + b / 16), b64CharOf (b % 16 * 4), '=']
  | a :: b :: c :: rest =>
      b64CharOf (a / 4) :: b64CharOf (a % 4 * 16 + b / 16) ::
        b64CharOf (b % 16 * 4 + c / 64) :: b64CharOf (c % 64) :: b64EncodeStd rest

/-- Base64 decoding, four characters per group, honouring `=` padding. -/
def b64DecodeStd : List Char → List Nat
  | c1 :: c2 :: c3 :: c4 :: rest =>
      if c3 = '=' then [b64ValOf c1 * 4 + b64ValOf c2 / 16]
      else if c4 = '=' then
        [b64ValOf c1 * 4 + b64ValOf c2 / 16, b64ValOf c2 % 16 * 16 + b64ValOf c3 / 4]
      else
        (b64ValOf c1 * 4 + b64ValOf c2 / 16) ::
          (b64ValOf c2 % 16 * 16 + b64ValOf c3 / 4) ::
          (b64ValOf c3 % 4 * 64 + b64ValOf c4) :: b64DecodeStd rest
  | _ => []

/-- Model of `BitstringStatusList.encode`: `base64(gzipSync(bitstring))`; the gzip step is
the external zlib collaborator, passed in as a function. -/
def encodeStatusList (gz : List Nat → List Nat) (bits : List Nat) : List Char :=
  b64EncodeStd (gz bits)

/-- Model of `BitstringStatusList.decode`: `gunzipSync(base64decode(encoded))`. -/
def decodeStatusList (gunz : List Nat → List Nat) (encoded : List Char) : List Nat :=
  gunz (b64DecodeStd encoded)

/-! ### Helper lemmas for the bit buffer and base64 -/

theorem getBit_testBit (bits : List Nat) (i : Nat) :
    getBit bits i = (bits.getD (i / 8) 0).testBit (i % 8) := by
  have h1 : (1 : Nat) <<< (i % 8) = 2 ^ (i % 8) := by
    rw [Nat.shiftLeft_eq, one_mul]
  unfold getBit
  rw [h1, Nat.and_two_pow]
  cases (bits.getD (i / 8) 0).testBit (i % 8) <;> simp

theorem getD_set_self (l : List Nat) (i : Nat) (v : Nat) (h : i < l.length) :
    (l.set i v).getD i 0 = v := by
  simp [List.getD_eq_getElem?_getD, List.getElem?_set, h]

theorem getD_set_ne (l : List Nat) (i j : Nat) (v : Nat) (h : i ≠ j) :
    (l.set i v).getD j 0 = l.getD j 0 := by
  simp [List.getD_eq_getElem?_getD, List.getElem?_set, h]

theorem b64ValOf_b64CharOf_fin : ∀ v : Fin 64, b64ValOf (b64CharOf v.val) = v.val := by decide

theorem b64ValOf_b64CharOf (v : Nat) (h : v < 64) : b64ValOf (b64CharOf v) = v :=
  b64ValOf_b64CharOf_fin ⟨v, h⟩

theorem b64CharOf_ne_pad_fin : ∀ v : Fin 64, b64CharOf v.val ≠ '=' := by decide

theorem b64CharOf_ne_pad (v : Nat) (h : v < 64) : b64CharOf v ≠ '=' :=
  b64CharOf_ne_pad_fin ⟨v, h⟩

theorem mul_add_div_eq (x y k : Nat) (hy : y < k) : (x * k + y) / k = x := by
  have hk : 0 < k := Nat.lt_of_le_of_lt (Nat.zero_le y) hy
  rw [Nat.add_comm (x * k) y, Nat.mul_comm x k, Nat.add_mul_div_left y x hk,
    Nat.div_eq_of_lt hy, Nat.zero_add]

theorem mul_add_mod_eq (x y k : Nat) (hy : y < k) : (x * k + y) % k = y := by
  rw [Nat.add_comm (x * k) y, Nat.mul_comm x k, Nat.add_mul_mod_self_left,
    Nat.mod_eq_of_lt hy]

theorem b64_roundtrip : ∀ bs : List Nat, (∀ b ∈ bs, b < 256) →
    b64DecodeStd (b64EncodeStd bs) = bs := by
  intro bs
  induction bs using b64EncodeStd.induct with
  | case1 => intro _; simp [b64EncodeStd, b64DecodeStd]
  | case2 a =>
      intro h
      have ha : a < 256 := h a (by simp)
      have h1 : a / 4 < 64 := by omega
      have h2 : a % 4 * 16 < 64 := by omega
      simp only [b64EncodeStd, b64DecodeStd, reduceIte]
      rw [b64ValOf_b64CharOf _ h1, b64ValOf_b64CharOf _ h2,
        Nat.mul_div_cancel _ (by omega : (0:Nat) < 16)]
      congr 1
      omega
  | case3 a b =>
      intro h
      have ha : a < 256 := h a (by simp)
      have hb : b < 256 := h b (by simp)
      have h1 : a / 4 < 64 := by omega
      have h2 : a % 4 * 16 + b / 16 < 64 := by omega
      have h3 : b % 16 * 4 < 64 := by omega
      simp only [b64EncodeStd, b64DecodeStd, if_neg (b64CharOf_ne_pad _ h3), reduceIte]
      rw [b64ValOf_b64CharOf _ h1, b64ValOf_b64CharOf _ h2,
        b64ValOf_b64CharOf _ h3,
        mul_add_div_eq (a % 4) (b / 16) 16 (by omega),
        mul_add_mod_eq (a % 4) (b / 16) 16 (by omega),
        Nat.mul_div_cancel _ (by omega : (0:Nat) < 4)]
      congr 2 <;> omega
  | case4 a b c rest ih =>
      intro h
      have ha : a < 256 := h a (by simp)
      have hb : b < 256 := h b (by simp)
      have hc : c < 256 := h c (by simp)
      have h1 : a / 4 < 64 := by omega
      have h2 : a % 4 * 16 + b / 16 < 64 := by omega
      have h3 : b % 16 * 4 + c / 64 < 64 := by omega
      have h4 : c % 64 < 64 := by omega
      simp only [b64EncodeStd, b64DecodeStd,
        if_neg (b64CharOf_ne_pad _ h3), if_neg (b64CharOf_ne_pad _ h4)]
      rw [b64ValOf_b64CharOf _ h1, b64ValOf_b64CharOf _ h2,
        b64ValOf_b64CharOf _ h3, b64ValOf_b64CharOf _ h4,
        mul_add_div_eq (a % 4) (b / 16) 16 (by omega),
        mul_add_mod_eq (a % 4) (b / 16) 16 (by omega),
        mul_add_div_eq (b % 16) (c / 64) 4 (by omega),
        mul_add_mod_eq (b % 16) (c / 64) 4 (by omega),
        ih (fun x hx => h x (by simp [hx]))]
      congr 3 <;> omega

theorem getD_replicate_zero (n i : Nat) : (List.replicate n (0 : Nat)).getD i 0 = 0 := by
  simp [List.getD_eq_getElem?_getD, List.getElem?_replicate]
  split <;> rfl

theorem testBit_getBit_set_self (bits : List Nat) (i : Nat) (h : i < 8 * bits.length) :
    getBit (setBit bits i) i = true := by
  have hb : i / 8 < bits.length := by omega
  rw [getBit_testBit]
  unfold setBit
  rw [getD_set_self _ _ _ hb, Nat.shiftLeft_eq, one_mul, Nat.testBit_or,
    Nat.testBit_two_pow_self, Bool.or_true]

theorem testBit_getBit_clear_self (bits : List Nat) (i : Nat) (h : i < 8 * bits.length) :
    getBit (clearBit bits i) i = false := by
  have hb : i / 8 < bits.length := by omega
  rw [getBit_testBit]
  unfold clearBit
  rw [getD_set_self _ _ _ hb, Nat.shiftLeft_eq, one_mul, Nat.testBit_and,
    Nat.testBit_xor, Nat.testBit_two_pow_sub_one, Nat.testBit_two_pow_self]
  have h8 : i % 8 < 32 := by omega
  simp [h8]

theorem getBit_set_frame (bits : List Nat) (i j : Nat) (hne : j ≠ i) :
    getBit (setBit bits i) j = getBit bits j := by
  rw [getBit_testBit, getBit_testBit]
  unfold setBit
  by_cases hb : i / 8 = j / 8
  · by_cases hlen : i / 8 < bits.length
    · rw [← hb, getD_set_self _ _ _ hlen, Nat.shiftLeft_eq, one_mul, Nat.testBit_or,
        Nat.testBit_two_pow_of_ne (by omega), Bool.or_false, hb]
    · rw [List.set_eq_of_length_le (by omega)]
  · rw [getD_set_ne _ _ _ _ hb]

theorem getBit_clear_frame (bits : List Nat) (i j : Nat) (hne : j ≠ i) :
    getBit (clearBit bits i) j = getBit bits j := by
  rw [getBit_testBit, getBit_testBit]
  unfold clearBit
  by_cases hb : i / 8 = j / 8
  · by_cases hlen : i / 8 < bits.length
    · rw [← hb, getD_set_self _ _ _ hlen, Nat.shiftLeft_eq, one_mul, Nat.testBit_and,
        Nat.testBit_xor, Nat.testBit_two_pow_sub_one,
        Nat.testBit_two_pow_of_ne (by omega), hb]
      have h8 : j % 8 < 32 := by omega
      simp [h8]
    · rw [List.set_eq_of_length_le (by omega)]
  · rw [getD_set_ne _ _ _ _ hb]

/-- C6: for every in-bounds index `i` of a `BitstringStatusList`, `getBit i` is
false on a fresh list and after `clearBit i`, true after `setBit i`; `setBit`
and `clearBit` change no bit other than `i`; and for every list state,
`decode (encode list)` reproduces the byte-for-byte identical bit pattern
(given that the external gzip/gunzip pair is inverse and gzip emits bytes). -/
theorem bitstring_statuslist_ops_c6 (bits : List Nat) (i j size : Nat)
    (gz gunz : List Nat → List Nat) :
    (getBit (freshBitstring size) i = false) ∧
    (i < 8 * bits.length → getBit (setBit bits i) i = true) ∧
    (i < 8 * bits.length → getBit (clearBit bits i) i = false) ∧
    (j ≠ i → getBit (setBit bits i) j = getBit bits j) ∧
    (j ≠ i → getBit (clearBit bits i) j = getBit bits j) ∧
    (gunz (gz bits) = bits → (∀ b ∈ gz bits, b < 256) →
      decodeStatusList gunz (encodeStatusList gz bits) = bits) := by
  refine ⟨?_, testBit_getBit_set_self bits i, testBit_getBit_clear_self bits i,
    getBit_set_frame bits i j, getBit_clear_frame bits i j, ?_⟩
  · rw [getBit_testBit]
    unfold freshBitstring
    rw [getD_replicate_zero]
    exact Nat.zero_testBit _
  · intro hinv hbytes
    unfold decodeStatusList encodeStatusList
    rw [b64_roundtrip _ hbytes, hinv]

theorem bitstring_statuslist_ops_c6_witness :
    (0 < 8 * (freshBitstring 16).length ∧
      getBit (setBit (freshBitstring 16) 0) 0 = true) ∧
    ((1 : Nat) ≠ 0 ∧ getBit (setBit (freshBitstring 16) 0) 1 = getBit (freshBitstring 16) 1) ∧
    ((fun l => l) ((fun l => l) (freshBitstring 16)) = freshBitstring 16 ∧
      decodeStatusList (fun l => l) (encodeStatusList (fun l => l) (freshBitstring 16)) =
        freshBitstring 16) :=
  ⟨⟨by decide, (bitstring_statuslist_ops_c6 (freshBitstring 16) 0 1 16 (fun l => l)
      (fun l => l)).2.1 (by decide)⟩,
    ⟨by decide, (bitstring_statuslist_ops_c6 (freshBitstring 16) 0 1 16 (fun l => l)
      (fun l => l)).2.2.2.1 (by decide)⟩,
    ⟨rfl, (bitstring_statuslist_ops_c6 (freshBitstring 16) 0 1 16 (fun l => l)
      (fun l => l)).2.2.2.2.2 rfl (by decide)⟩⟩

/-- C7: revoking a credential id already present in the issuer's list fails (the
source throws before saving, so the persisted list is unchanged), and
`isRevoked` returns false for an id never revoked for that issuer. -/
theorem revocation_registry_c7 (list : RevocationList)
    (cid issuerDid subjectDid : List Char) (reason : Option (List Char)) (now : Int) :
    (isRevoked list cid = true →
      revoke list cid issuerDid subjectDid reason now =
        .error ("Credential already revoked".toList)) ∧
    ((∀ e ∈ list.revoked, e.credentialId ≠ cid) → isRevoked list cid = false) := by
  constructor
  · intro h
    unfold revoke
    unfold isRevoked at h
    rw [List.any_eq_true] at h
    obtain ⟨e, he, hmatch⟩ := h
    have : list.revoked.find? (fun r => r.credentialId == cid) ≠ none := by
      intro hnone
      rw [List.find?_eq_none] at hnone
      exact absurd hmatch (by simpa using hnone e he)
    cases hf : list.revoked.find? (fun r => r.credentialId == cid) with
    | none => exact absurd hf this
    | some e' => simp [hf]
  · intro h
    unfold isRevoked
    rw [List.any_eq_false]
    intro e he
    simpa using h e he

theorem revocation_registry_c7_witness :
    (isRevoked ⟨1, [], 0, [⟨['a'], [], [], 0, none⟩]⟩ ['a'] = true ∧
      revoke ⟨1, [], 0, [⟨['a'], [], [], 0, none⟩]⟩ ['a'] [] [] none 0 =
        .error ("Credential already revoked".toList)) ∧
    ((∀ e ∈ (⟨1, [], 0, [⟨['a'], [], [], 0, none⟩]⟩ : RevocationList).revoked,
        e.credentialId ≠ ['b']) ∧
      isRevoked ⟨1, [], 0, [⟨['a'], [], [], 0, none⟩]⟩ ['b'] = false) :=
  ⟨⟨by decide, (revocation_registry_c7 ⟨1, [], 0, [⟨['a'], [], [], 0, none⟩]⟩
      ['a'] [] [] none 0).1 (by decide)⟩,
    ⟨by decide, (revocation_registry_c7 ⟨1, [], 0, [⟨['a'], [], [], 0, none⟩]⟩
      ['b'] [] [] none 0).2 (by decide)⟩⟩

/-- C10 (implicit): `allocateEntry` computes the first unset index but never sets
that bit, so the stored pattern is unchanged and a second `allocateEntry` with no
intervening `setStatus` returns the same index. -/
theorem allocate_entry_no_set_c10 (stored stored' : List Nat) (i : Nat)
    (h : allocateEntry stored = .ok (i, stored')) :
    stored' = stored ∧ allocateEntry stored' = .ok (i, stored') := by
  unfold allocateEntry at h ⊢
  cases hn : getNextAvailableIndex stored with
  | error e => rw [hn] at h; exact absurd h (by simp [Bind.bind, Except.bind])
  | ok idx =>
      rw [hn] at h
      simp [Bind.bind, Except.bind, pure, Except.pure] at h
      obtain ⟨h1, h2⟩ := h
      subst h1 h2
      exact ⟨rfl, by simp [Bind.bind, Except.bind, hn, pure, Except.pure]⟩

theorem allocate_entry_no_set_c10_witness :
    allocateEntry (freshBitstring 16) = .ok (0, freshBitstring 16) ∧
    (freshBitstring 16 = freshBitstring 16 ∧
      allocateEntry (freshBitstring 16) = .ok (0, freshBitstring 16)) :=
  ⟨by rfl, allocate_entry_no_set_c10 (freshBitstring 16) (freshBitstring 16) 0 (by rfl)⟩

/-! ## Keystore index and key rotation (src/src/keystore/index.ts,
src/src/rotation.ts).

`IdentityMetadata` mirrors the keystore's index entries; the keystore state is
the identity index plus the key files (a map from DID to the stored key
record; the encryption applied before writing does not affect the frame
properties proved here, so the record is kept as the key pair). -/

inductive IdentityType | owner | agent
deriving DecidableEq, Repr

structure IdentityMetadata where
  did : List Char
  type : IdentityType
  name : List Char
  createdAt : List Char
  ownerDid : Option (List Char)
deriving DecidableEq, Repr

structure KeyPair where
  publicKey : List Nat
  privateKey : List Nat
deriving DecidableEq, Repr

structure KeystoreState where
  identities : List IdentityMetadata
  keyfiles : List Char → Option KeyPair

/-- Model of `Keystore.getIdentity`: first index entry with the requested DID. -/
def getIdentity (st : KeystoreState) (did : List Char) : Option IdentityMetadata :=
  st.identities.find? (fun i => i.did == did)

/-- The index update inside `Keystore.storeIdentity`: `findIndex` on the DID,
replace the first match in place, else push at the end. -/
def upsertIdentity : List IdentityMetadata → IdentityMetadata → List IdentityMetadata
  | [], meta => [meta]
  | x :: xs, meta =>
      if x.did == meta.did then meta :: xs else x :: upsertIdentity xs meta

/-- Model of `Keystore.storeIdentity`: update the index, then write the key file for
`meta.did` (temp-write + atomic rename in the source). -/
def storeIdentity (st : KeystoreState) (meta : IdentityMetadata) (kp : KeyPair) :
    KeystoreState :=
  { identities := upsertIdentity st.identities meta,
    keyfiles := fun d => if d = meta.did then some kp else st.keyfiles d }

inductive RotationStatus | pending | completed | failed
deriving DecidableEq, Repr

structure KeyRotationRecord where
  oldDid : List Char
  newDid : List Char
  rotatedAt : List Char
  reason : Option (List Char)
  credentialsReissued : Nat
  status : RotationStatus
deriving DecidableEq, Repr

structure KeyRotationHistory where
  version : Nat
  identity : List Char
  rotations : List KeyRotationRecord
deriving DecidableEq, Repr

/-- Model of `KeyRotationManager.rotateKey`: look up the old identity (throw when
missing, before any state change), build the new identity from the old one with
only `did` and `createdAt` replaced, store it, and append one completed record
to the rotation history. `newDid` is `publicKeyToDidKey(newKeyPair.publicKey)`
in the source; it is passed in here alongside the fresh key pair. -/
def rotateKey (st : KeystoreState) (history : KeyRotationHistory)
    (oldDid : List Char) (reason : Option (List Char)) (newKeyPair : KeyPair)
    (newDid nowIso : List Char) :
    Except (List Char) (KeystoreState × KeyRotationHistory × KeyRotationRecord) :=
  match getIdentity st oldDid with
  | none => .error ("Identity not found: ".toList ++ oldDid)
  | some oldIdentity =>
      let newIdentity : IdentityMetadata :=
        { oldIdentity with did := newDid, createdAt := nowIso }
      let st' := storeIdentity st newIdentity newKeyPair
      let record : KeyRotationRecord :=
        { oldDid := oldDid, newDid := newDid, rotatedAt := nowIso,
          reason := reason, credentialsReissued := 0, status := .completed }
      let history' : KeyRotationHistory :=
        { history with
            identity := if history.identity = [] then oldIdentity.name else history.identity,
            rotations := history.rotations ++ [record] }
      .ok (st', history', record)

theorem find?_upsert_same (l : List IdentityMetadata) (m : IdentityMetadata) :
    (upsertIdentity l m).find? (fun i => i.did == m.did) = some m := by
  induction l with
  | nil => simp [upsertIdentity, List.find?]
  | cons x xs ih =>
      unfold upsertIdentity
      by_cases h : x.did = m.did
      · simp [h, List.find?]
      · simp only [beq_iff_eq, h, if_false, if_neg h]
        rw [List.find?_cons_of_neg _ (by simpa using h)]
        exact ih

theorem find?_upsert_other (l : List IdentityMetadata) (m : IdentityMetadata)
    (d : List Char) (hd : m.did ≠ d) :
    (upsertIdentity l m).find? (fun i => i.did == d) = l.find? (fun i => i.did == d) := by
  induction l with
  | nil =>
      unfold upsertIdentity
      rw [List.find?_cons_of_neg _ (by simpa using hd)]
  | cons x xs ih =>
      unfold upsertIdentity
      by_cases h : x.did = m.did
      · rw [if_pos (by simpa using h)]
        rw [List.find?_cons_of_neg _ (by simpa using hd),
          List.find?_cons_of_neg _ (by simp [h, hd])]
      · rw [if_neg (by simpa using h)]
        by_cases hxd : x.did = d
        · rw [List.find?_cons_of_pos _ (by simpa using hxd),
            List.find?_cons_of_pos _ (by simpa using hxd)]
        · rw [List.find?_cons_of_neg _ (by simpa using hxd),
            List.find?_cons_of_neg _ (by simpa using hxd)]
          exact ih

theorem getIdentity_store_eq (st : KeystoreState) (m : IdentityMetadata) (kp : KeyPair)
    (d : List Char) (h : m.did = d) : getIdentity (storeIdentity st m kp) d = some m := by
  subst h
  show (upsertIdentity st.identities m).find? (fun i => i.did == m.did) = some m
  exact find?_upsert_same _ _

theorem getIdentity_store_other (st : KeystoreState) (m : IdentityMetadata) (kp : KeyPair)
    (d : List Char) (h : m.did ≠ d) :
    getIdentity (storeIdentity st m kp) d = getIdentity st d := by
  show (upsertIdentity st.identities m).find? (fun i => i.did == d) = _
  exact find?_upsert_other _ _ _ h

/-- C8: `rotateKey` on an existing identity stores a new identity record that
keeps the old one's role, name and owner reference (only the DID and creation
time differ), appends exactly one completed rotation record to the ledger, and
leaves the old identity's index entry and key file untouched and resolvable;
on a missing identity it throws before any state change. -/
theorem rotate_key_c8 (st : KeystoreState) (history : KeyRotationHistory)
    (oldDid newDid nowIso : List Char) (reason : Option (List Char)) (kp : KeyPair) :
    (getIdentity st oldDid = none →
      rotateKey st history oldDid reason kp newDid nowIso =
        .error ("Identity not found: ".toList ++ oldDid)) ∧
    (∀ oldId, getIdentity st oldDid = some oldId → newDid ≠ oldDid →
      ∃ st' history' record,
        rotateKey st history oldDid reason kp newDid nowIso = .ok (st', history', record) ∧
        record = { oldDid := oldDid, newDid := newDid, rotatedAt := nowIso,
                   reason := reason, credentialsReissued := 0,
                   status := .completed } ∧
        history'.rotations = history.rotations ++ [record] ∧
        getIdentity st' newDid =
          some { oldId with did := newDid, createdAt := nowIso } ∧
        (∀ newId, getIdentity st' newDid = some newId →
          newId.type = oldId.type ∧ newId.name = oldId.name ∧
          newId.ownerDid = oldId.ownerDid ∧ newId.did = newDid ∧
          newId.createdAt = nowIso) ∧
        getIdentity st' oldDid = getIdentity st oldDid ∧
        st'.keyfiles oldDid = st.keyfiles oldDid) := by
  constructor
  · intro h
    unfold rotateKey
    rw [h]
  · intro oldId hfound hne
    refine ⟨storeIdentity st { oldId with did := newDid, createdAt := nowIso } kp,
      ⟨history.version,
        if history.identity = [] then oldId.name else history.identity,
        history.rotations ++ [⟨oldDid, newDid, nowIso, reason, 0, .completed⟩]⟩,
      ⟨oldDid, newDid, nowIso, reason, 0, .completed⟩, ?_, rfl, rfl, ?_, ?_, ?_, ?_⟩
    · unfold rotateKey
      rw [hfound]
    · exact getIdentity_store_eq st _ kp newDid rfl
    · intro newId hnew
      rw [getIdentity_store_eq st _ kp newDid rfl] at hnew
      cases hnew
      exact ⟨rfl, rfl, rfl, rfl, rfl⟩
    · rw [getIdentity_store_other st _ kp oldDid hne, hfound]
    · show (if oldDid = newDid then some kp else st.keyfiles oldDid) = st.keyfiles oldDid
      rw [if_neg (fun hh => hne hh.symm)]

theorem rotate_key_c8_witness :
    (getIdentity ⟨[], fun _ => none⟩ ['x'] = none ∧
      rotateKey ⟨[], fun _ => none⟩ ⟨1, [], []⟩ ['x'] none ⟨[], []⟩ ['y'] [] =
        .error ("Identity not found: ".toList ++ ['x'])) ∧
    (getIdentity ⟨[⟨['x'], .owner, ['n'], ['t'], none⟩], fun _ => none⟩ ['x'] =
        some ⟨['x'], .owner, ['n'], ['t'], none⟩ ∧
      (['y'] : List Char) ≠ ['x'] ∧
      ∃ st' history' record,
        rotateKey ⟨[⟨['x'], .owner, ['n'], ['t'], none⟩], fun _ => none⟩ ⟨1, [], []⟩
            ['x'] none ⟨[], []⟩ ['y'] ['u'] = .ok (st', history', record) ∧
        getIdentity st' ['x'] = some ⟨['x'], .owner, ['n'], ['t'], none⟩) := by
  refine ⟨⟨by decide, (rotate_key_c8 ⟨[], fun _ => none⟩ ⟨1, [], []⟩ ['x'] ['y'] []
    none ⟨[], []⟩).1 (by decide)⟩, by decide, by decide, ?_⟩
  obtain ⟨st', history', record, h1, _, _, _, _, h6, _⟩ :=
    (rotate_key_c8 ⟨[⟨['x'], .owner, ['n'], ['t'], none⟩], fun _ => none⟩ ⟨1, [], []⟩
      ['x'] ['y'] ['u'] none ⟨[], []⟩).2 ⟨['x'], .owner, ['n'], ['t'], none⟩
      (by decide) (by decide)
  exact ⟨st', history', record, h1, by rw [h6]; decide⟩

/-! ## `KeyRotationManager.getCurrentDid` (src/src/rotation.ts): follow
`oldDid -> newDid` links until no record matches. One loop iteration scans the
rotation list for the first record whose `oldDid` is the current DID; the
embedding makes one iteration a step function and adds explicit fuel, with
`none` meaning the loop has not finished within the given fuel. -/

/-- One iteration of the `getCurrentDid` loop: the first rotation record whose
`oldDid` equals the current DID, if any, yields the next DID. -/
def rotationStep (rots : List KeyRotationRecord) (d : List Char) : Option (List Char) :=
  (rots.find? (fun r => r.oldDid == d)).map (fun r => r.newDid)

/-- The `getCurrentDid` while-loop with explicit fuel. -/
def getCurrentDidFuel (rots : List KeyRotationRecord) : Nat → List Char → Option (List Char)
  | 0, _ => none
  | fuel + 1, d =>
      match rotationStep rots d with
      | none => some d
      | some d' => getCurrentDidFuel rots fuel d'

/-- Transitive-reflexive reachability along the rotation links followed by the
loop. -/
inductive RotReaches (rots : List KeyRotationRecord) : List Char → List Char → Prop
  | refl (d : List Char) : RotReaches rots d d
  | step {a b c : List Char} : rotationStep rots a = some b →
      RotReaches rots b c → RotReaches rots a c

/-- The ledger's links form no cycle: no step re-enters a DID it came from. -/
def RotAcyclic (rots : List KeyRotationRecord) : Prop :=
  ∀ a b, rotationStep rots a = some b → ¬ RotReaches rots b a

theorem rotReaches_terminal_unique (rots : List KeyRotationRecord) :
    ∀ {d t t' : List Char}, RotReaches rots d t → rotationStep rots t = none →
      RotReaches rots d t' → rotationStep rots t' = none → t = t' := by
  intro d t t' h1
  induction h1 with
  | refl a =>
      intro ht h2 ht'
      cases h2 with
      | refl => rfl
      | step hs _ => rw [ht] at hs; cases hs
  | step hs hr ih =>
      intro ht h2 ht'
      cases h2 with
      | refl => rw [ht'] at hs; cases hs
      | step hs' hr' =>
          have hb := Option.some.inj (hs.symm.trans hs')
          subst hb
          exact ih ht hr' ht'

/-- C9: over a rotation ledger whose links form no cycle, the `getCurrentDid`
loop terminates within `length + 1` iterations and returns the unique terminal
DID reachable from the start (the start itself when no link leaves it); and
without the acyclicity precondition the loop need not terminate (a self-link
loops forever). -/
theorem get_current_did_c9 :
    (∀ (rots : List KeyRotationRecord) (d : List Char), RotAcyclic rots →
      ∃ t, getCurrentDidFuel rots (rots.length + 1) d = some t ∧
        RotReaches rots d t ∧ rotationStep rots t = none ∧
        (∀ t', RotReaches rots d t' → rotationStep rots t' = none → t' = t)) ∧
    (∃ (rots : List KeyRotationRecord) (d : List Char),
      ∀ fuel, getCurrentDidFuel rots fuel d = none) := by
  constructor
  · intro rots d hA
    classical
    have key : ∀ n : Nat, ∀ d : List Char,
        (rots.filter (fun r => decide (RotReaches rots d r.oldDid))).length < n →
        ∃ t, getCurrentDidFuel rots n d = some t ∧ RotReaches rots d t ∧
          rotationStep rots t = none := by
      intro n
      induction n with
      | zero => intro d h; exact absurd h (Nat.not_lt_zero _)
      | succ n ih =>
          intro d h
          cases hstep : rotationStep rots d with
          | none =>
              refine ⟨d, ?_, .refl d, hstep⟩
              simp [getCurrentDidFuel, hstep]
          | some d' =>
              have hfind : ∃ r, rots.find? (fun r => r.oldDid == d) = some r ∧
                  r.newDid = d' := by
                have h' := hstep
                unfold rotationStep at h'
                cases hf : rots.find? (fun r => r.oldDid == d) with
                | none => rw [hf] at h'; cases h'
                | some r => rw [hf] at h'; exact ⟨r, rfl, by simpa using h'⟩
              obtain ⟨r, hf, hd'⟩ := hfind
              have hmem : r ∈ rots := List.mem_of_find?_eq_some hf
              have hrold : r.oldDid = d := by simpa using List.find?_some hf
              have hsub : List.Sublist
                  (rots.filter (fun r2 => decide (RotReaches rots d' r2.oldDid)))
                  (rots.filter (fun r2 => decide (RotReaches rots d r2.oldDid))) := by
                apply List.monotone_filter_right
                intro a ha
                exact decide_eq_true (.step hstep (of_decide_eq_true ha))
              have hrin : r ∈ rots.filter (fun r2 => decide (RotReaches rots d r2.oldDid)) := by
                rw [List.mem_filter]
                exact ⟨hmem, by rw [hrold]; exact decide_eq_true (.refl d)⟩
              have hrout : r ∉ rots.filter (fun r2 => decide (RotReaches rots d' r2.oldDid)) := by
                rw [List.mem_filter]
                rintro ⟨-, hdec⟩
                exact hA d d' hstep (hrold ▸ of_decide_eq_true hdec)
              have hlt : (rots.filter (fun r2 => decide (RotReaches rots d' r2.oldDid))).length <
                  (rots.filter (fun r2 => decide (RotReaches rots d r2.oldDid))).length :=
                Nat.lt_of_le_of_ne hsub.length_le
                  (fun he => hrout (hsub.eq_of_length he ▸ hrin))
              obtain ⟨t, h1, h2, h3⟩ := ih d' (by omega)
              refine ⟨t, ?_, .step hstep h2, h3⟩
              simpa [getCurrentDidFuel, hstep] using h1
    obtain ⟨t, h1, h2, h3⟩ := key (rots.length + 1) d (by
      have := List.length_filter_le (fun r => decide (RotReaches rots d r.oldDid)) rots
      omega)
    exact ⟨t, h1, h2, h3, fun t' hr' ht' => rotReaches_terminal_unique rots hr' ht' h2 h3⟩
  · refine ⟨[⟨['a'], ['a'], [], none, 0, .completed⟩], ['a'], ?_⟩
    intro fuel
    induction fuel with
    | zero => rfl
    | succ n ih =>
        have hstep : rotationStep [⟨['a'], ['a'], [], none, 0, .completed⟩] ['a'] =
            some ['a'] := rfl
        simp [getCurrentDidFuel, hstep, ih]

theorem get_current_did_c9_witness :
    RotAcyclic [] ∧
    ∃ t, getCurrentDidFuel [] 1 ['a'] = some t ∧ RotReaches [] ['a'] t ∧
      rotationStep [] t = none ∧
      (∀ t', RotReaches [] ['a'] t' → rotationStep [] t' = none → t' = t) :=
  ⟨fun _ _ h => by simp [rotationStep] at h,
    get_current_did_c9.1 [] ['a'] (fun _ _ h => by simp [rotationStep] at h)⟩

/-! ## Base58 codec (src/src/did/base58.ts, Bitcoin alphabet).

The source's inner loops perform exact multi-precision base conversion on a
little-endian digit array: processing one input unit multiplies the digit
array's value by the input base and adds the unit, carrying in the output
base. `stepDigits B M ds c` is one such iteration (output base `B`, input
base `M`), and `pushCarry` is the trailing `while (carry > 0)` loop. -/

def base58Alphabet : List Char :=
  "123456789ABCDEFGHJKLMNPQRSTUVWXYZabcdefghijkmnopqrstuvwxyz".toList

/-- Helper for `pushCarry` with explicit fuel, so that the definition is
structurally recursive and computes by reduction. With `c ≤ fuel` and a base
of at least 2 the fuel never runs out. -/
def pushCarryAux (B : Nat) : Nat → Nat → List Nat
  | _, 0 => []
  | 0, _ + 1 => []
  | fuel + 1, c + 1 => ((c + 1) % B) :: pushCarryAux B fuel ((c + 1) / B)

/-- The `while (carry > 0) { digits.push(carry % BASE); carry /= BASE }` loop;
both call sites use `B = 58` or `B = 256`. -/
def pushCarry (B : Nat) (c : Nat) : List Nat := pushCarryAux B c c

theorem pushCarryAux_zero (B : Nat) : ∀ fuel, pushCarryAux B fuel 0 = [] := by
  intro fuel
  cases fuel <;> rfl

theorem pushCarryAux_fuel_irrel (B : Nat) (hB : 2 ≤ B) :
    ∀ (c fuel fuel' : Nat), c ≤ fuel → c ≤ fuel' →
      pushCarryAux B fuel c = pushCarryAux B fuel' c := by
  intro c
  induction c using Nat.strong_induction_on with
  | _ c ih =>
      intro fuel fuel' hf hf'
      match c, fuel, fuel' with
      | 0, f, f' => rw [pushCarryAux_zero, pushCarryAux_zero]
      | k + 1, f + 1, f' + 1 =>
          show ((k + 1) % B) :: pushCarryAux B f ((k + 1) / B) =
            ((k + 1) % B) :: pushCarryAux B f' ((k + 1) / B)
          have hdiv : (k + 1) / B ≤ (k + 1) / 2 := Nat.div_le_div_left hB (by omega)
          have hlt : (k + 1) / B < k + 1 := Nat.div_lt_self (by omega) (by omega)
          rw [ih ((k + 1) / B) hlt f f' (by omega) (by omega)]

/-- The recursion equation matching the source loop. -/
theorem pushCarry_eq (B : Nat) (hB : 2 ≤ B) (c : Nat) :
    pushCarry B c = if c = 0 then [] else (c % B) :: pushCarry B (c / B) := by
  match c with
  | 0 => rfl
  | k + 1 =>
      rw [if_neg (by omega)]
      show ((k + 1) % B) :: pushCarryAux B k ((k + 1) / B) =
        ((k + 1) % B) :: pushCarryAux B ((k + 1) / B) ((k + 1) / B)
      have hdiv : (k + 1) / B ≤ (k + 1) / 2 := Nat.div_le_div_left hB (by omega)
      rw [pushCarryAux_fuel_irrel B hB ((k + 1) / B) k ((k + 1) / B) (by omega) (by omega)]

theorem pushCarry_zero (B : Nat) : pushCarry B 0 = [] := rfl

/-- One iteration of the conversion loop: multiply the little-endian digit
array (base `B`) by `M` and add `c`, digit by digit with carry, then push the
remaining carry. -/
def stepDigits (B M : Nat) : List Nat → Nat → List Nat
  | [], c => pushCarry B c
  | d :: rest, c => ((c + d * M) % B) :: stepDigits B M rest ((c + d * M) / B)

/-- Value of a little-endian digit list in base `B`. -/
def digitsVal (B : Nat) (ds : List Nat) : Nat :=
  ds.foldr (fun d acc => acc * B + d) 0

/-- Big-endian value accumulation, as the conversion loops compute it. -/
def beVal (M : Nat) (data : List Nat) : Nat :=
  data.foldl (fun acc b => acc * M + b) 0

/-- A little-endian digit list is canonical when its most significant digit is
nonzero; the conversion loops only ever produce canonical lists. -/
def Canon (ds : List Nat) : Prop := ds.getLast? ≠ some 0

theorem canon_cons_of_ne_nil (x : Nat) (l : List Nat) (hl : l ≠ []) (hc : Canon l) :
    Canon (x :: l) := by
  cases l with
  | nil => exact absurd rfl hl
  | cons y ys =>
      unfold Canon at *
      rwa [List.getLast?_cons_cons]

theorem digitsVal_pushCarry (B : Nat) (hB : 2 ≤ B) :
    ∀ c : Nat, digitsVal B (pushCarry B c) = c := by
  intro c
  induction c using Nat.strong_induction_on with
  | _ c ih =>
      rw [pushCarry_eq B hB c]
      by_cases h : c = 0
      · subst h
        simp [digitsVal]
      · rw [if_neg h]
        have hrec := ih (c / B) (Nat.div_lt_self (Nat.pos_of_ne_zero h) (by omega))
        show digitsVal B (pushCarry B (c / B)) * B + c % B = c
        rw [hrec]
        have h0 := Nat.div_add_mod c B
        rw [Nat.mul_comm] at h0
        exact h0

theorem digitsVal_stepDigits (B M : Nat) (hB : 2 ≤ B) :
    ∀ (ds : List Nat) (c : Nat),
      digitsVal B (stepDigits B M ds c) = c + digitsVal B ds * M := by
  intro ds
  induction ds with
  | nil =>
      intro c
      show digitsVal B (pushCarry B c) = c + digitsVal B [] * M
      rw [digitsVal_pushCarry B hB c]
      simp [digitsVal]
  | cons d rest ih =>
      intro c
      show digitsVal B (stepDigits B M rest ((c + d * M) / B)) * B + (c + d * M) % B =
        c + digitsVal B (d :: rest) * M
      rw [ih]
      show ((c + d * M) / B + digitsVal B rest * M) * B + (c + d * M) % B =
        c + (digitsVal B rest * B + d) * M
      have hmod : (c + d * M) / B * B + (c + d * M) % B = c + d * M := by
        have h0 := Nat.div_add_mod (c + d * M) B
        rw [Nat.mul_comm] at h0
        exact h0
      calc ((c + d * M) / B + digitsVal B rest * M) * B + (c + d * M) % B
          = ((c + d * M) / B * B + (c + d * M) % B) + digitsVal B rest * M * B := by ring
        _ = c + d * M + digitsVal B rest * M * B := by rw [hmod]
        _ = c + (digitsVal B rest * B + d) * M := by ring

theorem pushCarry_ne_nil (B c : Nat) (hB : 2 ≤ B) (hc : c ≠ 0) :
    pushCarry B c ≠ [] := by
  rw [pushCarry_eq B hB c, if_neg hc]
  simp

theorem canon_pushCarry (B : Nat) (hB : 2 ≤ B) : ∀ c : Nat, Canon (pushCarry B c) := by
  intro c
  induction c using Nat.strong_induction_on with
  | _ c ih =>
      rw [pushCarry_eq B hB c]
      by_cases h : c = 0
      · rw [if_pos h]
        simp [Canon]
      · rw [if_neg h]
        by_cases hq : c / B = 0
        · rw [hq, pushCarry_zero]
          have hcB : c < B := by
            by_contra hge
            have h1 : 1 ≤ c / B := (Nat.one_le_div_iff (by omega)).2 (by omega)
            omega
          unfold Canon
          rw [List.getLast?_singleton, Nat.mod_eq_of_lt hcB]
          simp only [ne_eq, Option.some.injEq]
          exact h
        · exact canon_cons_of_ne_nil _ _ (pushCarry_ne_nil B (c / B) hB hq)
            (ih (c / B) (Nat.div_lt_self (Nat.pos_of_ne_zero h) (by omega)))

theorem stepDigits_ne_nil (B M : Nat) (d : Nat) (rest : List Nat) (c : Nat) :
    stepDigits B M (d :: rest) c ≠ [] := by
  rw [stepDigits]
  simp

theorem canon_stepDigits (B M : Nat) (hB : 2 ≤ B) (hM : 1 ≤ M) :
    ∀ (ds : List Nat) (c : Nat), Canon ds → Canon (stepDigits B M ds c) := by
  intro ds
  induction ds with
  | nil => intro c _; exact canon_pushCarry B hB c
  | cons d rest ih =>
      intro c hC
      cases rest with
      | nil =>
          have hd : d ≠ 0 := by
            unfold Canon at hC
            simpa using hC
          show Canon (((c + d * M) % B) :: pushCarry B ((c + d * M) / B))
          by_cases hq : (c + d * M) / B = 0
          · rw [hq, pushCarry_zero]
            have hlt : c + d * M < B := by
              by_contra hge
              have h1 : 1 ≤ (c + d * M) / B := (Nat.one_le_div_iff (by omega)).2 (by omega)
              omega
            have hd1 : 1 ≤ d := Nat.one_le_iff_ne_zero.2 hd
            have hdm : 1 * 1 ≤ d * M := Nat.mul_le_mul hd1 hM
            unfold Canon
            rw [List.getLast?_singleton, Nat.mod_eq_of_lt hlt]
            simp only [ne_eq, Option.some.injEq]
            omega
          · exact canon_cons_of_ne_nil _ _ (pushCarry_ne_nil B _ hB hq)
              (canon_pushCarry B hB _)
      | cons d2 rest2 =>
          have hC2 : Canon (d2 :: rest2) := by
            unfold Canon at hC ⊢
            rwa [List.getLast?_cons_cons] at hC
          show Canon (((c + d * M) % B) :: stepDigits B M (d2 :: rest2) ((c + d * M) / B))
          exact canon_cons_of_ne_nil _ _ (stepDigits_ne_nil B M d2 rest2 _) (ih _ hC2)

theorem allLt_pushCarry (B : Nat) (hB : 2 ≤ B) :
    ∀ c : Nat, ∀ d ∈ pushCarry B c, d < B := by
  intro c
  induction c using Nat.strong_induction_on with
  | _ c ih =>
      rw [pushCarry_eq B hB c]
      by_cases h : c = 0
      · rw [if_pos h]; intro d hd; cases hd
      · rw [if_neg h]
        intro d hd
        rcases List.mem_cons.1 hd with h1 | h1
        · subst h1; exact Nat.mod_lt _ (by omega)
        · exact ih (c / B) (Nat.div_lt_self (Nat.pos_of_ne_zero h) (by omega)) d h1

theorem allLt_stepDigits (B M : Nat) (hB : 2 ≤ B) :
    ∀ (ds : List Nat) (c : Nat), ∀ x ∈ stepDigits B M ds c, x < B := by
  intro ds
  induction ds with
  | nil => intro c; exact allLt_pushCarry B hB c
  | cons d rest ih =>
      intro c x hx
      rw [stepDigits] at hx
      rcases List.mem_cons.1 hx with h1 | h1
      · subst h1; exact Nat.mod_lt _ (by omega)
      · exact ih _ x h1

theorem digitsVal_zero_canon (B : Nat) (hB : 2 ≤ B) :
    ∀ ds : List Nat, Canon ds → digitsVal B ds = 0 → ds = [] := by
  intro ds
  induction ds with
  | nil => intro _ _; rfl
  | cons d rest ih =>
      intro hC hv
      show d :: rest = []  -- derive a contradiction
      exfalso
      have hv' : digitsVal B rest * B + d = 0 := hv
      have hd : d = 0 := by omega
      have hrest : digitsVal B rest = 0 := by
        by_contra hne
        have : 1 ≤ digitsVal B rest := Nat.one_le_iff_ne_zero.2 hne
        have : B ≤ digitsVal B rest * B := by
          calc B = 1 * B := (Nat.one_mul B).symm
            _ ≤ digitsVal B rest * B := Nat.mul_le_mul_right B this
        omega
      cases rest with
      | nil =>
          unfold Canon at hC
          rw [List.getLast?_singleton] at hC
          exact hC (by rw [hd])
      | cons d2 rest2 =>
          have hC2 : Canon (d2 :: rest2) := by
            unfold Canon at hC ⊢
            rwa [List.getLast?_cons_cons] at hC
          exact absurd (ih hC2 hrest) (by simp)

theorem canon_val_unique (B : Nat) (hB : 2 ≤ B) :
    ∀ ds es : List Nat, Canon ds → Canon es →
      digitsVal B ds = digitsVal B es →
      (∀ d ∈ ds, d < B) → (∀ e ∈ es, e < B) → ds = es := by
  intro ds
  induction ds with
  | nil =>
      intro es _ hCe hv _ _
      exact (digitsVal_zero_canon B hB es hCe (by
        rw [← hv]; rfl)).symm
  | cons d rest ih =>
      intro es hCd hCe hv hltd hlte
      cases es with
      | nil =>
          exact absurd (digitsVal_zero_canon B hB (d :: rest) hCd hv) (by simp)
      | cons e rest' =>
          have hd : d < B := hltd d (by simp)
          have he : e < B := hlte e (by simp)
          have hvd : digitsVal B (d :: rest) = digitsVal B rest * B + d := rfl
          have hve : digitsVal B (e :: rest') = digitsVal B rest' * B + e := rfl
          rw [hvd, hve] at hv
          have hde : d = e := by
            have h1 := mul_add_mod_eq (digitsVal B rest) d B hd
            have h2 := mul_add_mod_eq (digitsVal B rest') e B he
            rw [← h1, ← h2, hv]
          have hvr : digitsVal B rest = digitsVal B rest' := by
            have h1 := mul_add_div_eq (digitsVal B rest) d B hd
            have h2 := mul_add_div_eq (digitsVal B rest') e B he
            rw [← h1, ← h2, hv]
          subst hde
          cases rest with
          | nil =>
              cases rest' with
              | nil => rfl
              | cons r2 rs2 =>
                  have hC2 : Canon (r2 :: rs2) := by
                    unfold Canon at hCe ⊢
                    rwa [List.getLast?_cons_cons] at hCe
                  exact absurd (digitsVal_zero_canon B hB (r2 :: rs2) hC2 (by
                    rw [← hvr]; rfl)) (by simp)
          | cons r1 rs1 =>
              cases rest' with
              | nil =>
                  have hC1 : Canon (r1 :: rs1) := by
                    unfold Canon at hCd ⊢
                    rwa [List.getLast?_cons_cons] at hCd
                  exact absurd (digitsVal_zero_canon B hB (r1 :: rs1) hC1 (by
                    rw [hvr]; rfl)) (by simp)
              | cons r2 rs2 =>
                  have hC1 : Canon (r1 :: rs1) := by
                    unfold Canon at hCd ⊢
                    rwa [List.getLast?_cons_cons] at hCd
                  have hC2 : Canon (r2 :: rs2) := by
                    unfold Canon at hCe ⊢
                    rwa [List.getLast?_cons_cons] at hCe
                  have := ih (r2 :: rs2) hC1 hC2 hvr
                    (fun x hx => hltd x (List.mem_cons_of_mem _ hx))
                    (fun x hx => hlte x (List.mem_cons_of_mem _ hx))
                  rw [this]

/-- Model of `encode` (src/src/did/base58.ts): count leading zero bytes, convert the
byte string to little-endian base-58 digits, and emit `'1' * zeros` followed
by the digits most-significant first through the alphabet. The `length === 0`
early return falls out of the general path. -/
def b58Encode (data : List Nat) : List Char :=
  List.replicate (data.takeWhile (fun b => b == 0)).length '1' ++
    (data.foldl (fun ds b => stepDigits 58 256 ds b) []).reverse.map
      (fun d => base58Alphabet.getD d '1')

/-- Model of `decode` (src/src/did/base58.ts): count leading `'1'`s, look each character
up in the alphabet (throwing `Invalid base58 character` on a miss), accumulate
little-endian base-256 digits, and emit the zeros followed by the digits
most-significant first. -/
def b58Decode (s : List Char) : Except (List Char) (List Nat) :=
  (s.foldlM (fun ds c =>
    if base58Alphabet.contains c then
      pure (stepDigits 256 58 ds (base58Alphabet.indexOf c))
    else
      throw ("Invalid base58 character: ".toList ++ [c])) ([] : List Nat) :
    Except (List Char) (List Nat)).map
    (fun digits => List.replicate (s.takeWhile (fun c => c == '1')).length 0 ++ digits.reverse)

theorem b58_contains_char_fin :
    ∀ v : Fin 58, base58Alphabet.contains (base58Alphabet.getD v.val '1') = true := by decide

theorem b58_indexOf_char_fin :
    ∀ v : Fin 58, base58Alphabet.indexOf (base58Alphabet.getD v.val '1') = v.val := by decide

theorem b58_char_ne_one_fin :
    ∀ v : Fin 58, v.val ≠ 0 → base58Alphabet.getD v.val '1' ≠ '1' := by decide

theorem b58_contains_one : base58Alphabet.contains '1' = true := by decide

theorem b58_indexOf_one : base58Alphabet.indexOf '1' = 0 := by decide

theorem takeWhile_replicate_append (p : Char → Bool) (c : Char) (hp : p c = true)
    (rest : List Char) (hrest : ∀ x, rest.head? = some x → p x = false) :
    ∀ n : Nat, (List.replicate n c ++ rest).takeWhile p = List.replicate n c := by
  intro n
  induction n with
  | zero =>
      show rest.takeWhile p = []
      cases rest with
      | nil => rfl
      | cons x xs => simp [List.takeWhile_cons, hrest x rfl]
  | succ n ih =>
      show ((c :: (List.replicate n c ++ rest)).takeWhile p) = c :: List.replicate n c
      rw [List.takeWhile_cons, if_pos hp, ih]

theorem head?_dropWhile_false (p : α → Bool) :
    ∀ (l : List α) (x : α), (l.dropWhile p).head? = some x → p x = false := by
  intro l
  induction l with
  | nil => intro x hx; cases hx
  | cons a as ih =>
      intro x hx
      by_cases ha : p a
      · rw [List.dropWhile_cons, if_pos ha] at hx
        exact ih x hx
      · rw [List.dropWhile_cons, if_neg ha] at hx
        cases hx
        simpa using ha

theorem foldl_congr_mem {α β : Type} (f g : α → β → α) :
    ∀ (l : List β) (init : α), (∀ x ∈ l, ∀ acc, f acc x = g acc x) →
      l.foldl f init = l.foldl g init := by
  intro l
  induction l with
  | nil => intro init _; rfl
  | cons x xs ih =>
      intro init h
      show xs.foldl f (f init x) = xs.foldl g (g init x)
      rw [h x (by simp) init]
      exact ih _ (fun y hy => h y (by simp [hy]))

theorem beVal_replicate_zero (M : Nat) :
    ∀ (n : Nat) (s : List Nat),
      (List.replicate n 0 ++ s).foldl (fun acc b => acc * M + b) 0 =
        s.foldl (fun acc b => acc * M + b) 0 := by
  intro n
  induction n with
  | zero => intro s; rfl
  | succ n ih =>
      intro s
      show (List.replicate n 0 ++ s).foldl (fun acc b => acc * M + b) (0 * M + 0) =
        s.foldl (fun acc b => acc * M + b) 0
      rw [show (0 : Nat) * M + 0 = 0 by simp]
      exact ih s

theorem foldl_step_replicate_one :
    ∀ n : Nat, (List.replicate n '1').foldl
      (fun ds c => stepDigits 256 58 ds (base58Alphabet.indexOf c)) [] = [] := by
  intro n
  induction n with
  | zero => rfl
  | succ n ih =>
      show (List.replicate n '1').foldl _
        (stepDigits 256 58 [] (base58Alphabet.indexOf '1')) = []
      rw [show stepDigits 256 58 [] (base58Alphabet.indexOf '1') = [] by
        rw [b58_indexOf_one]
        show pushCarry 256 0 = []
        exact pushCarry_zero 256]
      exact ih

theorem digitsVal_foldl (B M : Nat) (hB : 2 ≤ B) :
    ∀ (data : List Nat) (init : List Nat),
      digitsVal B (data.foldl (fun ds b => stepDigits B M ds b) init) =
        data.foldl (fun acc b => acc * M + b) (digitsVal B init) := by
  intro data
  induction data with
  | nil => intro init; rfl
  | cons b rest ih =>
      intro init
      show digitsVal B (rest.foldl (fun ds b => stepDigits B M ds b) (stepDigits B M init b)) =
        rest.foldl (fun acc b => acc * M + b) (digitsVal B init * M + b)
      rw [ih (stepDigits B M init b), digitsVal_stepDigits B M hB init b, Nat.add_comm]

theorem canon_foldl (B M : Nat) (hB : 2 ≤ B) (hM : 1 ≤ M) :
    ∀ (data : List Nat) (init : List Nat), Canon init →
      Canon (data.foldl (fun ds b => stepDigits B M ds b) init) := by
  intro data
  induction data with
  | nil => intro init h; exact h
  | cons b rest ih =>
      intro init h
      exact ih _ (canon_stepDigits B M hB hM init b h)

theorem allLt_foldl (B M : Nat) (hB : 2 ≤ B) :
    ∀ (data : List Nat) (init : List Nat), (∀ x ∈ init, x < B) →
      ∀ x ∈ data.foldl (fun ds b => stepDigits B M ds b) init, x < B := by
  intro data
  induction data with
  | nil => intro init h; exact h
  | cons b rest ih =>
      intro init h
      exact ih _ (fun x hx => allLt_stepDigits B M hB init b x hx)

theorem foldlM_b58_valid : ∀ (s : List Char),
    (∀ c ∈ s, base58Alphabet.contains c = true) →
    ∀ init : List Nat,
      (s.foldlM (fun ds c =>
        if base58Alphabet.contains c then
          pure (stepDigits 256 58 ds (base58Alphabet.indexOf c))
        else
          throw ("Invalid base58 character: ".toList ++ [c])) init :
        Except (List Char) (List Nat)) =
      pure (s.foldl (fun ds c => stepDigits 256 58 ds (base58Alphabet.indexOf c)) init) := by
  intro s
  induction s with
  | nil => intro _ init; rfl
  | cons c cs ih =>
      intro h init
      rw [List.foldlM_cons, if_pos (h c (by simp))]
      show (cs.foldlM _ (stepDigits 256 58 init (base58Alphabet.indexOf c)) :
        Except (List Char) (List Nat)) = _
      exact ih (fun x hx => h x (by simp [hx])) _

/-- Round trip of the base58 codec: `decode(encode(data)) == data` for every
byte string. -/
theorem b58_roundtrip (data : List Nat) (h : ∀ b ∈ data, b < 256) :
    b58Decode (b58Encode data) = .ok data := by
  have hz58 : (2 : Nat) ≤ 58 := by omega
  have hz256 : (2 : Nat) ≤ 256 := by omega
  set zeros := (data.takeWhile (fun b => b == 0)).length with hzeros
  set digits := data.foldl (fun ds b => stepDigits 58 256 ds b) [] with hdigits
  have hCanonNil : Canon ([] : List Nat) := by simp [Canon]
  have hCanon : Canon digits := canon_foldl 58 256 hz58 (by omega) data [] hCanonNil
  have hAll : ∀ x ∈ digits, x < 58 :=
    allLt_foldl 58 256 hz58 data [] (by intro x hx; cases hx)
  have hVal : digitsVal 58 digits = data.foldl (fun acc b => acc * 256 + b) 0 :=
    digitsVal_foldl 58 256 hz58 data []
  -- the encoded string and the head of its digit part
  have hheadrest : ∀ x, (digits.reverse.map (fun d => base58Alphabet.getD d '1')).head? =
      some x → (x == '1') = false := by
    intro x hx
    rw [List.head?_map, List.head?_reverse] at hx
    cases hL : digits.getLast? with
    | none => rw [hL] at hx; cases hx
    | some d =>
        rw [hL] at hx
        cases hx
        have hd0 : d ≠ 0 := by
          unfold Canon at hCanon
          intro hcontra
          exact hCanon (by rw [hL, hcontra])
        have hdlt : d < 58 := hAll d (List.mem_of_getLast?_eq_some hL)
        simpa using b58_char_ne_one_fin ⟨d, hdlt⟩ hd0
  unfold b58Encode b58Decode
  rw [foldlM_b58_valid _ (by
    intro c hc
    rcases List.mem_append.1 hc with h1 | h1
    · rw [List.eq_of_mem_replicate h1]; exact b58_contains_one
    · obtain ⟨d, hd, rfl⟩ := List.mem_map.1 h1
      have : d < 58 := hAll d (List.mem_reverse.1 hd)
      exact b58_contains_char_fin ⟨d, this⟩) _]
  show Except.ok _ = _
  rw [takeWhile_replicate_append (fun c => c == '1') '1' (by decide) _ hheadrest zeros]
  rw [List.foldl_append, foldl_step_replicate_one zeros, List.foldl_map]
  rw [foldl_congr_mem _ (fun ds d => stepDigits 256 58 ds d) digits.reverse [] (by
    intro d hd acc
    have : d < 58 := hAll d (List.mem_reverse.1 hd)
    rw [b58_indexOf_char_fin ⟨d, this⟩])]
  -- identify the recomputed digits with the reversed zero-stripped input
  set stripped := data.dropWhile (fun b => b == 0) with hstripped
  have hdataeq : List.replicate zeros 0 ++ stripped = data := by
    have htake : data.takeWhile (fun b => b == 0) = List.replicate zeros 0 := by
      rw [List.eq_replicate_iff]
      exact ⟨rfl, fun b hb => by simpa using List.mem_takeWhile_imp hb⟩
    rw [← htake]
    exact List.takeWhile_append_dropWhile (fun b => b == 0) data
  have hCanonT : Canon stripped.reverse := by
    unfold Canon
    rw [List.getLast?_reverse]
    intro hcontra
    have := head?_dropWhile_false (fun b => b == 0) data 0 hcontra
    simp at this
  have hAllT : ∀ x ∈ stripped.reverse, x < 256 := by
    intro x hx
    refine h x ?_
    rw [← hdataeq]
    exact List.mem_append_right _ (List.mem_reverse.1 hx)
  have hValT : digitsVal 256 stripped.reverse =
      stripped.foldl (fun acc b => acc * 256 + b) 0 := by
    unfold digitsVal
    rw [List.foldr_reverse]
  have hComputed : digitsVal 256 (digits.reverse.foldl (fun ds d => stepDigits 256 58 ds d) []) =
      digitsVal 256 stripped.reverse := by
    rw [digitsVal_foldl 256 58 hz256 digits.reverse [], hValT]
    have : digitsVal 256 ([] : List Nat) = 0 := rfl
    rw [this]
    have hrev : digits.reverse.foldl (fun acc b => acc * 58 + b) 0 = digitsVal 58 digits := by
      unfold digitsVal
      rw [List.foldl_reverse]
    rw [hrev, hVal, ← hdataeq, beVal_replicate_zero 256 zeros stripped]
  have hEq : digits.reverse.foldl (fun ds d => stepDigits 256 58 ds d) [] = stripped.reverse :=
    canon_val_unique 256 hz256 _ _
      (canon_foldl 256 58 hz256 (by omega) digits.reverse [] hCanonNil)
      hCanonT hComputed
      (allLt_foldl 256 58 hz256 digits.reverse [] (by intro x hx; cases hx))
      hAllT
  rw [hEq]
  simp only [List.reverse_reverse, List.length_replicate]
  rw [hdataeq]

/-! ## did:key codec (src/src/did/index.ts). Template-literal interpolations in
the error messages are rendered with `Nat.toDigits` (decimal for lengths, base
16 for the multicodec tag bytes, matching `toString(16)`). -/

/-- Model of `publicKeyToDidKey`: reject keys that are not exactly 32 bytes, else prefix
the Ed25519 multicodec tag `0xed 0x01`, base58-encode, and wrap with the
multibase marker `z` and the `did:key:` scheme/method. -/
def publicKeyToDidKey (publicKey : List Nat) : Except (List Char) (List Char) :=
  if publicKey.length ≠ 32 then
    .error ("Invalid Ed25519 public key length: expected 32 bytes, got ".toList ++
      Nat.toDigits 10 publicKey.length)
  else
    .ok ("did:key:z".toList ++ b58Encode (0xed :: 0x01 :: publicKey))

/-- The tail of `didKeyToPublicKey` after the base58 decode succeeded: minimum
length, multicodec tag, exact key length. -/
def didKeyParsePrefixed (prefixedKey : List Nat) : Except (List Char) (List Nat) :=
  if prefixedKey.length < 34 then
    .error ("Invalid key length: expected at least 34 bytes, got ".toList ++
      Nat.toDigits 10 prefixedKey.length)
  else if ¬ (prefixedKey.getD 0 0 = 0xed ∧ prefixedKey.getD 1 0 = 0x01) then
    .error ("Unsupported key type: expected Ed25519 (0xed01), got 0x".toList ++
      Nat.toDigits 16 (prefixedKey.getD 0 0) ++ Nat.toDigits 16 (prefixedKey.getD 1 0))
  else if (prefixedKey.drop 2).length ≠ 32 then
    .error ("Invalid Ed25519 public key length: expected 32 bytes, got ".toList ++
      Nat.toDigits 10 (prefixedKey.drop 2).length)
  else
    .ok (prefixedKey.drop 2)

def didKeyToPublicKey (didKey : List Char) : Except (List Char) (List Nat) :=
  if didKey = [] then
    .error ("DID must be a non-empty string".toList)
  else if didKey.take 8 ≠ "did:key:".toList then
    .error ("Invalid DID format: expected 'did:key:', got '".toList ++ didKey.take 8 ++
      ['\''])
  else if (didKey.drop 8).take 1 ≠ ['z'] then
    .error ("Invalid multibase encoding: expected base58btc (z prefix)".toList)
  else if (didKey.drop 8).drop 1 = [] then
    .error ("Invalid DID: empty key component".toList)
  else
    (b58Decode ((didKey.drop 8).drop 1)).mapError
      (fun e => "Invalid base58 encoding: ".toList ++ e) >>= didKeyParsePrefixed

theorem except_mapError_ok {e1 e2 α : Type} (f : e1 → e2) (x : α) :
    (Except.ok x : Except e1 α).mapError f = Except.ok x := rfl

theorem except_mapError_error {e1 e2 α : Type} (f : e1 → e2) (e : e1) :
    (Except.error e : Except e1 α).mapError f = Except.error (f e) := rfl

theorem except_ok_bind {ε α β : Type} (x : α) (f : α → Except ε β) :
    (Except.ok x : Except ε α) >>= f = f x := rfl

theorem except_error_bind {ε α β : Type} (e : ε) (f : α → Except ε β) :
    (Except.error e : Except ε α) >>= f = Except.error e := rfl

/- `didKeyToPublicKey`: the check chain of the source, in source order —
non-empty string, `did:key:` prefix, `z` multibase marker, non-empty key
component, base58 decode, minimum decoded length 34, Ed25519 multicodec tag,
exactly 32 remaining bytes. -/

theorem foldl_beVal_pos (M : Nat) (hM : 1 ≤ M) :
    ∀ (l : List Nat) (acc : Nat), 0 < acc →
      0 < l.foldl (fun a b => a * M + b) acc := by
  intro l
  induction l with
  | nil => intro acc h; exact h
  | cons b rest ih =>
      intro acc h
      refine ih (acc * M + b) ?_
      have : acc * 1 ≤ acc * M := Nat.mul_le_mul_left acc hM
      omega

theorem b58Encode_ne_nil_of_head_pos (b0 : Nat) (rest : List Nat) (hb0 : b0 ≠ 0) :
    b58Encode (b0 :: rest) ≠ [] := by
  unfold b58Encode
  intro hcontra
  rcases List.append_eq_nil.1 hcontra with ⟨h1, h2⟩
  have hdig : (b0 :: rest).foldl (fun ds b => stepDigits 58 256 ds b) [] = [] := by
    have := List.map_eq_nil_iff.1 (by exact h2)
    simpa using this
  have hval : digitsVal 58 ((b0 :: rest).foldl (fun ds b => stepDigits 58 256 ds b) []) =
      (b0 :: rest).foldl (fun acc b => acc * 256 + b) 0 :=
    digitsVal_foldl 58 256 (by omega) _ []
  rw [hdig] at hval
  have hpos : 0 < (b0 :: rest).foldl (fun acc b => acc * 256 + b) 0 := by
    show 0 < rest.foldl (fun acc b => acc * 256 + b) (0 * 256 + b0)
    exact foldl_beVal_pos 256 (by omega) rest _ (by omega)
  rw [show digitsVal 58 ([] : List Nat) = 0 from rfl] at hval
  omega

/-- C1: decoding the identifier produced by encoding any 32-byte key returns
exactly that key, and `publicKeyToDidKey` throws for any input whose length is
not 32 bytes. -/
theorem did_key_roundtrip_c1 (k : List Nat) :
    (k.length = 32 → (∀ b ∈ k, b < 256) →
      ∃ s, publicKeyToDidKey k = .ok s ∧ didKeyToPublicKey s = .ok k) ∧
    (k.length ≠ 32 →
      publicKeyToDidKey k = .error
        ("Invalid Ed25519 public key length: expected 32 bytes, got ".toList ++
          Nat.toDigits 10 k.length)) := by
  constructor
  · intro hlen hbytes
    refine ⟨"did:key:z".toList ++ b58Encode (0xed :: 0x01 :: k), ?_, ?_⟩
    · unfold publicKeyToDidKey
      rw [if_neg (by omega)]
    · have henc : b58Encode (0xed :: 0x01 :: k) ≠ [] :=
        b58Encode_ne_nil_of_head_pos 0xed (0x01 :: k) (by omega)
      have hdec : b58Decode (b58Encode (0xed :: 0x01 :: k)) = .ok (0xed :: 0x01 :: k) :=
        b58_roundtrip (0xed :: 0x01 :: k) (by
          intro b hb
          rcases List.mem_cons.1 hb with h1 | hb
          · omega
          rcases List.mem_cons.1 hb with h1 | hb
          · omega
          · exact hbytes b hb)
      unfold didKeyToPublicKey
      rw [if_neg (by simp [String.toList])]
      rw [if_neg (show ¬ (("did:key:z".toList ++ b58Encode (0xed :: 0x01 :: k)).take 8 ≠
        "did:key:".toList) from fun hcon => hcon rfl)]
      rw [if_neg (show ¬ ((("did:key:z".toList ++ b58Encode (0xed :: 0x01 :: k)).drop 8).take 1 ≠
        ['z']) from fun hcon => hcon rfl)]
      rw [if_neg (show ¬ ((("did:key:z".toList ++ b58Encode (0xed :: 0x01 :: k)).drop 8).drop 1 =
        []) from by
          show ¬ (b58Encode (0xed :: 0x01 :: k) = [])
          exact henc)]
      rw [show (("did:key:z".toList ++ b58Encode (0xed :: 0x01 :: k)).drop 8).drop 1 =
        b58Encode (0xed :: 0x01 :: k) from rfl]
      rw [hdec, except_mapError_ok, except_ok_bind]
      unfold didKeyParsePrefixed
      rw [if_neg (by
        show ¬ ((0xed :: 0x01 :: k).length < 34)
        simp [hlen])]
      rw [if_neg (show ¬ ¬ ((0xed :: 0x01 :: k).getD 0 0 = 0xed ∧
        (0xed :: 0x01 :: k).getD 1 0 = 0x01) from not_not_intro ⟨rfl, rfl⟩)]
      rw [if_neg (show ¬ (((0xed :: 0x01 :: k).drop 2).length ≠ 32) from fun hcon =>
        hcon (by simpa using hlen))]
      rfl
  · intro hlen
    unfold publicKeyToDidKey
    rw [if_pos hlen]

theorem did_key_roundtrip_c1_witness :
    ((List.replicate 32 0).length = 32 ∧ (∀ b ∈ List.replicate 32 0, b < 256) ∧
      ∃ s, publicKeyToDidKey (List.replicate 32 0) = .ok s ∧
        didKeyToPublicKey s = .ok (List.replicate 32 0)) ∧
    (([] : List Nat).length ≠ 32 ∧
      publicKeyToDidKey [] = .error
        ("Invalid Ed25519 public key length: expected 32 bytes, got ".toList ++
          Nat.toDigits 10 ([] : List Nat).length)) :=
  ⟨⟨rfl, by decide, (did_key_roundtrip_c1 (List.replicate 32 0)).1 rfl (by decide)⟩,
    ⟨by decide, (did_key_roundtrip_c1 []).2 (by decide)⟩⟩

/-- C5 counterexample: for `did:key:z11` the base58 decode yields the two bytes
`[0, 0]`, whose tag is not the Ed25519 tag, yet the reported reason is the
minimum-length error, not the unsupported-key-type error — so the tag check
does not precede the length check as the claim states. -/
theorem did_key_error_order_c5_counterexample :
    b58Decode ("11".toList) = .ok [0, 0] ∧
    ¬ (([0, 0] : List Nat).getD 0 0 = 0xed ∧ ([0, 0] : List Nat).getD 1 0 = 0x01) ∧
    didKeyToPublicKey ("did:key:z11".toList) =
      .error ("Invalid key length: expected at least 34 bytes, got 2".toList) ∧
    didKeyToPublicKey ("did:key:z11".toList) ≠
      .error ("Unsupported key type: expected Ed25519 (0xed01), got 0x00".toList) := by
  refine ⟨by rfl, by decide, by rfl, ?_⟩
  intro hcontra
  have h1 : didKeyToPublicKey ("did:key:z11".toList) =
      .error ("Invalid key length: expected at least 34 bytes, got 2".toList) := by rfl
  rw [h1] at hcontra
  injection hcontra with h2
  exact absurd h2 (by decide)

/-- C5 (amended): `didKeyToPublicKey` fails on each malformed-identifier class
with a distinct, stable reason, in the source's check order: empty input,
missing `did:key:` prefix, missing `z` multibase marker, empty key component,
out-of-alphabet base58 character, decoded length below 34 bytes (checked
before the tag), wrong 2-byte Ed25519 tag, and remaining length other than 32;
the first failing check in this order is the one reported. -/
theorem did_key_error_order_c5 (s : List Char) :
    (s = [] → didKeyToPublicKey s = .error ("DID must be a non-empty string".toList)) ∧
    (s ≠ [] → s.take 8 ≠ "did:key:".toList →
      didKeyToPublicKey s =
        .error ("Invalid DID format: expected 'did:key:', got '".toList ++ s.take 8 ++
          ['\''])) ∧
    (s ≠ [] → s.take 8 = "did:key:".toList → (s.drop 8).take 1 ≠ ['z'] →
      didKeyToPublicKey s =
        .error ("Invalid multibase encoding: expected base58btc (z prefix)".toList)) ∧
    (s ≠ [] → s.take 8 = "did:key:".toList → (s.drop 8).take 1 = ['z'] →
      (s.drop 8).drop 1 = [] →
      didKeyToPublicKey s = .error ("Invalid DID: empty key component".toList)) ∧
    (∀ e, s ≠ [] → s.take 8 = "did:key:".toList → (s.drop 8).take 1 = ['z'] →
      (s.drop 8).drop 1 ≠ [] → b58Decode ((s.drop 8).drop 1) = .error e →
      didKeyToPublicKey s = .error ("Invalid base58 encoding: ".toList ++ e)) ∧
    (∀ D, s ≠ [] → s.take 8 = "did:key:".toList → (s.drop 8).take 1 = ['z'] →
      (s.drop 8).drop 1 ≠ [] → b58Decode ((s.drop 8).drop 1) = .ok D →
      D.length < 34 →
      didKeyToPublicKey s =
        .error ("Invalid key length: expected at least 34 bytes, got ".toList ++
          Nat.toDigits 10 D.length)) ∧
    (∀ D, s ≠ [] → s.take 8 = "did:key:".toList → (s.drop 8).take 1 = ['z'] →
      (s.drop 8).drop 1 ≠ [] → b58Decode ((s.drop 8).drop 1) = .ok D →
      ¬ D.length < 34 → ¬ (D.getD 0 0 = 0xed ∧ D.getD 1 0 = 0x01) →
      didKeyToPublicKey s =
        .error ("Unsupported key type: expected Ed25519 (0xed01), got 0x".toList ++
          Nat.toDigits 16 (D.getD 0 0) ++ Nat.toDigits 16 (D.getD 1 0))) ∧
    (∀ D, s ≠ [] → s.take 8 = "did:key:".toList → (s.drop 8).take 1 = ['z'] →
      (s.drop 8).drop 1 ≠ [] → b58Decode ((s.drop 8).drop 1) = .ok D →
      ¬ D.length < 34 → (D.getD 0 0 = 0xed ∧ D.getD 1 0 = 0x01) →
      (D.drop 2).length ≠ 32 →
      didKeyToPublicKey s =
        .error ("Invalid Ed25519 public key length: expected 32 bytes, got ".toList ++
          Nat.toDigits 10 (D.drop 2).length)) ∧
    (∀ D, s ≠ [] → s.take 8 = "did:key:".toList → (s.drop 8).take 1 = ['z'] →
      (s.drop 8).drop 1 ≠ [] → b58Decode ((s.drop 8).drop 1) = .ok D →
      ¬ D.length < 34 → (D.getD 0 0 = 0xed ∧ D.getD 1 0 = 0x01) →
      (D.drop 2).length = 32 →
      didKeyToPublicKey s = .ok (D.drop 2)) := by
  refine ⟨?_, ?_, ?_, ?_, ?_, ?_, ?_, ?_, ?_⟩
  · intro h
    unfold didKeyToPublicKey
    rw [if_pos h]
  · intro h1 h2
    unfold didKeyToPublicKey
    rw [if_neg h1, if_pos h2]
  · intro h1 h2 h3
    unfold didKeyToPublicKey
    rw [if_neg h1, if_neg (not_not_intro h2), if_pos h3]
  · intro h1 h2 h3 h4
    unfold didKeyToPublicKey
    rw [if_neg h1, if_neg (not_not_intro h2), if_neg (not_not_intro h3), if_pos h4]
  · intro e h1 h2 h3 h4 h5
    unfold didKeyToPublicKey
    rw [if_neg h1, if_neg (not_not_intro h2), if_neg (not_not_intro h3), if_neg h4,
      h5, except_mapError_error, except_error_bind]
  · intro D h1 h2 h3 h4 h5 h6
    unfold didKeyToPublicKey
    rw [if_neg h1, if_neg (not_not_intro h2), if_neg (not_not_intro h3), if_neg h4,
      h5, except_mapError_ok, except_ok_bind]
    unfold didKeyParsePrefixed
    rw [if_pos h6]
  · intro D h1 h2 h3 h4 h5 h6 h7
    unfold didKeyToPublicKey
    rw [if_neg h1, if_neg (not_not_intro h2), if_neg (not_not_intro h3), if_neg h4,
      h5, except_mapError_ok, except_ok_bind]
    unfold didKeyParsePrefixed
    rw [if_neg h6, if_pos h7]
  · intro D h1 h2 h3 h4 h5 h6 h7 h8
    unfold didKeyToPublicKey
    rw [if_neg h1, if_neg (not_not_intro h2), if_neg (not_not_intro h3), if_neg h4,
      h5, except_mapError_ok, except_ok_bind]
    unfold didKeyParsePrefixed
    rw [if_neg h6, if_neg (not_not_intro h7), if_pos h8]
  · intro D h1 h2 h3 h4 h5 h6 h7 h8
    unfold didKeyToPublicKey
    rw [if_neg h1, if_neg (not_not_intro h2), if_neg (not_not_intro h3), if_neg h4,
      h5, except_mapError_ok, except_ok_bind]
    unfold didKeyParsePrefixed
    rw [if_neg h6, if_neg (not_not_intro h7), if_neg (not_not_intro h8)]

theorem did_key_error_order_c5_witness :
    (("did:key:z11".toList : List Char) ≠ [] ∧
      ("did:key:z11".toList).take 8 = "did:key:".toList ∧
      (("did:key:z11".toList).drop 8).take 1 = ['z'] ∧
      (("did:key:z11".toList).drop 8).drop 1 ≠ [] ∧
      b58Decode ((("did:key:z11".toList).drop 8).drop 1) = .ok [0, 0] ∧
      ([0, 0] : List Nat).length < 34) ∧
    didKeyToPublicKey ("did:key:z11".toList) =
      .error ("Invalid key length: expected at least 34 bytes, got ".toList ++
        Nat.toDigits 10 ([0, 0] : List Nat).length) :=
  ⟨⟨by decide, by decide, by decide, by decide, by rfl, by decide⟩,
    (did_key_error_order_c5 ("did:key:z11".toList)).2.2.2.2.2.1 [0, 0]
      (by decide) (by decide) (by decide) (by decide) (by rfl) (by decide)⟩

/-! ## Credential engine infrastructure (src/unnamed/part_014 with the byte
helpers of src/unnamed/part_001).

Strings are `List Char` and byte buffers `List Nat`; `Buffer.from(string)` /
`Buffer.toString()` are modelled for the ASCII/Latin-1 content these tokens
carry as the character-code maps `strBytes` / `bytesToStr`. JSON text is
produced and consumed explicitly: generation mirrors `JSON.stringify` on the
object literals the source builds (insertion order preserved), and
`parseJson` is a recursive-descent model of `JSON.parse` covering the JSON
fragment these tokens use (strings without escape sequences, integer
numbers, arrays, objects, literals). -/

def lbrace : Char := Char.ofNat 123

def rbrace : Char := Char.ofNat 125

/-- Model of `jwt.split('.')`. -/
def splitOnDot : List Char → List (List Char)
  | [] => [[]]
  | c :: rest =>
      if c = '.' then [] :: splitOnDot rest
      else
        match splitOnDot rest with
        | [] => [[c]]
        | p :: ps => (c :: p) :: ps

def strBytes (s : List Char) : List Nat := s.map Char.toNat

def bytesToStr (bs : List Nat) : List Char := bs.map Char.ofNat

def b64uAlphabet : List Char :=
  "ABCDEFGHIJKLMNOPQRSTUVWXYZabcdefghijklmnopqrstuvwxyz0123456789-_".toList

def b64uCharOf (v : Nat) : Char := b64uAlphabet.getD v 'A'

def b64uValOf (c : Char) : Nat := b64uAlphabet.indexOf c

/-- Three bytes to four sextets, with the partial-group layouts of base64. -/
def bytesToSextets : List Nat → List Nat
  | [] => []
  | [a] => [a / 4, a % 4 * 16]
  | [a, b] => [a / 4, a % 4 * 16 + b / 16, b % 16 * 4]
  | a :: b :: c :: rest =>
      a / 4 :: (a % 4 * 16 + b / 16) :: (b % 16 * 4 + c / 64) :: (c % 64) ::
        bytesToSextets rest

/-- Four sextets back to three bytes; a trailing group of two or three sextets
yields one or two bytes (the dropped low bits match the base64 decoder). -/
def sextetsToBytes : List Nat → List Nat
  | v1 :: v2 :: v3 :: v4 :: rest =>
      (v1 * 4 + v2 / 16) :: (v2 % 16 * 16 + v3 / 4) :: (v3 % 4 * 64 + v4) ::
        sextetsToBytes rest
  | [v1, v2] => [v1 * 4 + v2 / 16]
  | [v1, v2, v3] => [v1 * 4 + v2 / 16, v2 % 16 * 16 + v3 / 4]
  | _ => []

/-- Model of `bytesToBase64url`: unpadded url-safe base64. -/
def bytesToBase64url (bs : List Nat) : List Char :=
  (bytesToSextets bs).map b64uCharOf

/-- Model of `base64urlToBytes` on alphabet characters (Node's decoder also
skips characters outside the alphabet, which never arises on these tokens). -/
def base64urlToBytes (s : List Char) : List Nat :=
  sextetsToBytes (s.map b64uValOf)

/-- JSON values, as produced by `JSON.parse`; numbers restricted to the
integers these tokens carry. -/
inductive Json where
  | null
  | bool (b : Bool)
  | num (n : Int)
  | str (s : List Char)
  | arr (xs : List Json)
  | obj (fields : List (List Char × Json))

/-- Member access `j[key]` on a parsed value: `undefined` is `none`; on
duplicate keys `JSON.parse` keeps the last. -/
def Json.getField : Json → List Char → Option Json
  | .obj fields, key => (fields.reverse.find? (fun f => f.1 == key)).map (fun f => f.2)
  | _, _ => none

def isWsChar (c : Char) : Bool := c == ' ' || c == '\t' || c == '\n' || c == '\r'

def skipWs (s : List Char) : List Char := s.dropWhile isWsChar

def isDigitChar (c : Char) : Bool := 48 ≤ c.toNat && c.toNat ≤ 57

def digitsToNat (ds : List Char) : Nat := ds.foldl (fun acc d => acc * 10 + (d.toNat - 48)) 0

/-- String literal body: no escape sequences (none appear in these tokens);
everything up to the closing quote. -/
def parseStrLit : List Char → Option (List Char × List Char)
  | [] => none
  | c :: rest =>
      if c = '"' then some ([], rest)
      else if c = '\\' then none
      else
        match parseStrLit rest with
        | some (content, r) => some (c :: content, r)
        | none => none

mutual

def parseJsonF : Nat → List Char → Option (Json × List Char)
  | 0, _ => none
  | fuel + 1, s =>
      match skipWs s with
      | [] => none
      | c :: rest =>
          if c = '"' then
            match parseStrLit rest with
            | some (content, r) => some (.str content, r)
            | none => none
          else if c = '[' then
            match skipWs rest with
            | c2 :: r2 =>
                if c2 = ']' then some (.arr [], r2)
                else
                  match parseElemsF fuel rest with
                  | some (vs, r3) => some (.arr vs, r3)
                  | none => none
            | [] => none
          else if c = lbrace then
            match skipWs rest with
            | c2 :: r2 =>
                if c2 = rbrace then some (.obj [], r2)
                else
                  match parseMembersF fuel rest with
                  | some (ms, r3) => some (.obj ms, r3)
                  | none => none
            | [] => none
          else if c = '-' then
            let ds := rest.takeWhile isDigitChar
            if ds = [] then none
            else some (.num (-(digitsToNat ds : Int)), rest.drop ds.length)
          else if isDigitChar c then
            let ds := (c :: rest).takeWhile isDigitChar
            some (.num (digitsToNat ds), (c :: rest).drop ds.length)
          else
            match c :: rest with
            | 'n' :: 'u' :: 'l' :: 'l' :: r => some (.null, r)
            | 't' :: 'r' :: 'u' :: 'e' :: r => some (.bool true, r)
            | 'f' :: 'a' :: 'l' :: 's' :: 'e' :: r => some (.bool false, r)
            | _ => none

def parseElemsF : Nat → List Char → Option (List Json × List Char)
  | 0, _ => none
  | fuel + 1, s =>
      match parseJsonF fuel s with
      | none => none
      | some (v, r) =>
          match skipWs r with
          | c :: r2 =>
              if c = ',' then
                match parseElemsF fuel r2 with
                | some (vs, r3) => some (v :: vs, r3)
                | none => none
              else if c = ']' then some ([v], r2)
              else none
          | [] => none

def parseMembersF : Nat → List Char → Option (List (List Char × Json) × List Char)
  | 0, _ => none
  | fuel + 1, s =>
      match skipWs s with
      | c :: r =>
          if c = '"' then
            match parseStrLit r with
            | some (key, r2) =>
                match skipWs r2 with
                | c2 :: r3 =>
                    if c2 = ':' then
                      match parseJsonF fuel r3 with
                      | some (v, r4) =>
                          match skipWs r4 with
                          | c3 :: r5 =>
                              if c3 = ',' then
                                match parseMembersF fuel r5 with
                                | some (ms, r6) => some ((key, v) :: ms, r6)
                                | none => none
                              else if c3 = rbrace then some ([(key, v)], r5)
                              else none
                          | [] => none
                      | none => none
                    else none
                | [] => none
            | none => none
          else none
      | [] => none

end

/-- Model of `JSON.parse`: parse one value and require only whitespace after. -/
def parseJson (s : List Char) : Option Json :=
  match parseJsonF (2 * s.length + 2) s with
  | some (v, rest) => if skipWs rest = [] then some v else none
  | none => none

/-! ### JSON text generation, mirroring `JSON.stringify` on the literals the
source builds. -/

def jsonEscapeChar (c : Char) : List Char :=
  if c = '"' then ['\\', '"'] else if c = '\\' then ['\\', '\\'] else [c]

def strLitChars (s : List Char) : List Char :=
  '"' :: s.flatMap jsonEscapeChar ++ ['"']

def intToChars (i : Int) : List Char :=
  if i < 0 then '-' :: Nat.toDigits 10 i.natAbs else Nat.toDigits 10 i.natAbs

def strArrChars (xs : List (List Char)) : List Char :=
  '[' :: (List.intercalate [','] (xs.map strLitChars)) ++ [']']

/-! ### Credentials, `signCredential` and `verifyCredential`.

The Ed25519 primitives (src/unnamed/part_001 `sign`/`verify`, Node crypto) and
the ISO-date parse (`new Date(...).getTime()`) are external collaborators and
enter as function parameters `signFn`, `verifyFn`, `epochOf`. -/

/-- Values of the extra `credentialSubject` fields the credential builders
emit (strings such as `owner`/`name`/`createdAt`/`audience`, and the string
array `scopes`). -/
inductive SubjVal where
  | str (s : List Char)
  | num (n : Int)
  | strArr (xs : List (List Char))

def SubjVal.chars : SubjVal → List Char
  | .str s => strLitChars s
  | .num n => intToChars n
  | .strArr xs => strArrChars xs

def SubjVal.json : SubjVal → Json
  | .str s => .str s
  | .num n => .num n
  | .strArr xs => .arr (xs.map .str)

/-- A `VerifiableCredential` as the builders construct it: fixed context and
type arrays, issuer, `validFrom`, a `credentialSubject` of `id` plus extra
fields, and an optional `validUntil` ISO string. -/
structure VerifiableCredential where
  context : List (List Char)
  type : List (List Char)
  issuer : List Char
  validFrom : List Char
  subjectId : List Char
  subjectFields : List (List Char × SubjVal)
  validUntil : Option (List Char)

/-- JSON text of the `credentialSubject` object (insertion order: `id` first). -/
def credentialSubjectChars (c : VerifiableCredential) : List Char :=
  lbrace :: ("\"id\":".toList ++ strLitChars c.subjectId ++
    (c.subjectFields.flatMap (fun f => ',' :: strLitChars f.1 ++ ':' :: f.2.chars))) ++
    [rbrace]

/-- JSON text of the credential (insertion order of the object literal, with
`validUntil` assigned after construction, hence last). -/
def credentialChars (c : VerifiableCredential) : List Char :=
  lbrace :: ("\"@context\":".toList ++ strArrChars c.context ++
    ",\"type\":".toList ++ strArrChars c.type ++
    ",\"issuer\":".toList ++ strLitChars c.issuer ++
    ",\"validFrom\":".toList ++ strLitChars c.validFrom ++
    ",\"credentialSubject\":".toList ++ credentialSubjectChars c ++
    (match c.validUntil with
     | some u => ",\"validUntil\":".toList ++ strLitChars u
     | none => [])) ++ [rbrace]

/-- The parsed form of the credential JSON, for relating `JSON.stringify` and
`JSON.parse`. -/
def credentialJson (c : VerifiableCredential) : Json :=
  .obj ([("@context".toList, .arr (c.context.map .str)),
         ("type".toList, .arr (c.type.map .str)),
         ("issuer".toList, .str c.issuer),
         ("validFrom".toList, .str c.validFrom),
         ("credentialSubject".toList,
           .obj (("id".toList, .str c.subjectId) ::
             c.subjectFields.map (fun f => (f.1, f.2.json))))] ++
    (match c.validUntil with
     | some u => [("validUntil".toList, .str u)]
     | none => []))

/-- Payload `exp`: `Math.floor(new Date(validUntil).getTime() / 1000)`. -/
def payloadExp (epochOf : List Char → Int) (c : VerifiableCredential) : Option Int :=
  c.validUntil.map epochOf

/-- JSON text of the JWT payload `{iss, sub, iat, vc}` with `exp` assigned
after construction (hence serialized last). -/
def payloadChars (epochOf : List Char → Int) (now : Int) (c : VerifiableCredential) :
    List Char :=
  lbrace :: ("\"iss\":".toList ++ strLitChars c.issuer ++
    ",\"sub\":".toList ++ strLitChars c.subjectId ++
    ",\"iat\":".toList ++ intToChars now ++
    ",\"vc\":".toList ++ credentialChars c ++
    (match payloadExp epochOf c with
     | some e => ",\"exp\":".toList ++ intToChars e
     | none => [])) ++ [rbrace]

/-- The parsed form of the payload JSON. -/
def payloadJson (epochOf : List Char → Int) (now : Int) (c : VerifiableCredential) : Json :=
  .obj ([("iss".toList, .str c.issuer),
         ("sub".toList, .str c.subjectId),
         ("iat".toList, .num now),
         ("vc".toList, credentialJson c)] ++
    (match payloadExp epochOf c with
     | some e => [("exp".toList, .num e)]
     | none => []))

/-- JSON text of the JWT header `{alg, typ, kid}`. -/
def headerChars (issuer : List Char) : List Char :=
  lbrace :: ("\"alg\":\"EdDSA\",\"typ\":\"JWT\",\"kid\":".toList ++
    strLitChars (issuer ++ '#' :: ((issuer.splitOn ':').getD 2 []))) ++ [rbrace]

/-- The parsed form of the header JSON. -/
def headerJson (issuer : List Char) : Json :=
  .obj [("alg".toList, .str "EdDSA".toList),
        ("typ".toList, .str "JWT".toList),
        ("kid".toList, .str (issuer ++ '#' :: ((issuer.splitOn ':').getD 2 [])))]

/-- Model of `signCredential`: base64url-encode header and payload, sign the
dot-joined signing input, and join the three segments with dots. -/
def signCredential (signFn : List Nat → List Nat → List Nat → List Nat)
    (epochOf : List Char → Int) (now : Int) (c : VerifiableCredential)
    (privateKey publicKey : List Nat) : List Char :=
  let encodedHeader := bytesToBase64url (strBytes (headerChars c.issuer))
  let encodedPayload := bytesToBase64url (strBytes (payloadChars epochOf now c))
  let signingInput := strBytes (encodedHeader ++ '.' :: encodedPayload)
  let signature := signFn signingInput privateKey publicKey
  encodedHeader ++ '.' :: encodedPayload ++ '.' :: bytesToBase64url signature

structure VerificationResult where
  valid : Bool
  reason : Option (List Char)
  payload : Option Json

structure VerificationExpectations where
  allowedIssuers : Option (List (List Char)) := none
  expectedSubject : Option (List Char) := none
  expectedAudience : Option (List Char) := none
  expectedDomain : Option (List Char) := none

/-- Whether a parsed JSON value is `null` (property access on it throws). -/
def Json.isNull : Json → Bool
  | .null => true
  | _ => false

mutual

/-- Model of the template rendering `String(x)` of a parsed JSON value, as in
the backtick literal for the unsupported-algorithm message: numbers print
their digits, arrays join their elements with commas. -/
def jsStr : Json → List Char
  | .null => "null".toList
  | .bool true => "true".toList
  | .bool false => "false".toList
  | .num n => intToChars n
  | .str s => s
  | .arr xs => jsStrElems xs
  | .obj _ => "[object Object]".toList

/-- Array elements joined with commas (`Array.prototype.toString`); a `null`
element renders as the empty string. -/
def jsStrElems : List Json → List Char
  | [] => []
  | [Json.null] => []
  | [x] => jsStr x
  | Json.null :: xs => ',' :: jsStrElems xs
  | x :: xs => jsStr x ++ ',' :: jsStrElems xs

end

/-- Whitespace trimming of JS `ToNumber` on strings. -/
def trimWs (s : List Char) : List Char :=
  ((s.dropWhile isWsChar).reverse.dropWhile isWsChar).reverse

/-- Digits-with-optional-fraction body of a decimal literal, sign already
stripped: the integer part and whether the fraction is nonzero; `none` for
anything else. -/
def decBody (u : List Char) : Option (Nat × Bool) :=
  let ip := u.takeWhile isDigitChar
  match u.drop ip.length with
  | [] => if ip.isEmpty then none else some (digitsToNat ip, false)
  | '.' :: frac =>
      if frac.all isDigitChar && (!ip.isEmpty || !frac.isEmpty) then
        some (digitsToNat ip, digitsToNat frac != 0)
      else none
  | _ => none

/-- Model of JS `ToNumber` on a string: a whitespace-trimmed optional-sign
decimal literal evaluates to its value, the empty string to 0, and other
forms (exponents, hex literals, `Infinity`) are collapsed to NaN, here
`none`. Because the verification time is an integer, only the floor of the
value and whether the value is exactly zero are observable through `<` and
truthiness; the pair returns exactly these. -/
def strToNum (s : List Char) : Option (Int × Bool) :=
  match trimWs s with
  | [] => some (0, true)
  | '-' :: u =>
      (decBody u).map (fun p =>
        (if p.2 then -(p.1 : Int) - 1 else -(p.1 : Int), p.1 == 0 && !p.2))
  | '+' :: u => (decBody u).map (fun p => ((p.1 : Int), p.1 == 0 && !p.2))
  | u => (decBody u).map (fun p => ((p.1 : Int), p.1 == 0 && !p.2))

/-- JavaScript truthiness of a parsed JSON value: 0, the empty string, false
and null are falsy; every array and object is truthy. -/
def jsTruthy : Json → Bool
  | .null => false
  | .bool b => b
  | .num e => e != 0
  | .str s => !s.isEmpty
  | .arr _ => true
  | .obj _ => true

/-- The comparison `x < now` for an integer `now`, with JS coercion of the
left operand: strings and arrays go through `ToNumber` (arrays via their
comma-join), booleans become 0/1, null becomes 0, objects are NaN; a NaN
comparison is false. A non-integer value compares like its floor, since `now`
is an integer. -/
def jsNumLt (v : Json) (now : Int) : Bool :=
  match v with
  | .num e => decide (e < now)
  | .str s =>
      match strToNum s with
      | some p => decide (p.1 < now)
      | none => false
  | .bool b => decide ((if b then (1 : Int) else 0) < now)
  | .null => decide ((0 : Int) < now)
  | .arr xs =>
      match strToNum (jsStrElems xs) with
      | some p => decide (p.1 < now)
      | none => false
  | .obj _ => false

/-- Expiry stage `payload.exp && payload.exp < now`: accessing `.exp` on a
null payload throws (the error branch, caught as a verification error);
otherwise a truthy `exp` fails the check when its coerced value is below
`now`. -/
def expFails (payload : Json) (now : Int) : Except Unit Bool :=
  match payload with
  | .null => .error ()
  | _ =>
      .ok (match payload.getField "exp".toList with
        | none => false
        | some v => jsTruthy v && jsNumLt v now)

/-- Issuer allow-list check `allowedIssuers && !allowedIssuers.includes(iss)`. -/
def issuerFails (payload : Json) (options : VerificationExpectations) : Bool :=
  match options.allowedIssuers with
  | none => false
  | some allowed =>
      match payload.getField "iss".toList with
      | some (.str s) => !(allowed.contains s)
      | _ => true

/-- Subject check `expectedSubject && sub !== expectedSubject`. -/
def subjectFails (payload : Json) (options : VerificationExpectations) : Bool :=
  match options.expectedSubject with
  | none => false
  | some expSub =>
      match payload.getField "sub".toList with
      | some (.str s) => s != expSub
      | _ => true

/-- The access `payload.vc.credentialSubject?.audience` (or `?.domain`): throws
when `payload.vc` is `undefined` or `null`, otherwise optional-chains to the
string value if any. -/
def vcSubjectField (payload : Json) (name : List Char) :
    Except Unit (Option (List Char)) :=
  match payload.getField "vc".toList with
  | none => .error ()
  | some .null => .error ()
  | some vc =>
      match vc.getField "credentialSubject".toList with
      | some cs =>
          .ok (match cs.getField name with
               | some (.str s) => some s
               | _ => none)
      | none => .ok none

/-- Audience/domain check `expected && actual !== expected`. -/
def fieldMismatch (actual : Option (List Char)) (expected : Option (List Char)) : Bool :=
  match expected with
  | none => false
  | some e => actual != some e

/-- Recover the issuer public key from `payload.iss` (non-string `iss` hits
the non-empty-string guard of `didKeyToPublicKey`). -/
def issuerPublicKey (payload : Json) : Except (List Char) (List Nat) :=
  match payload.getField "iss".toList with
  | some (.str s) => didKeyToPublicKey s
  | _ => .error ("DID must be a non-empty string".toList)

/-- Template rendering of `header.alg` in the unsupported-algorithm message:
a missing field prints as `undefined`, every other value as `String(x)`. -/
def algShow (header : Json) : List Char :=
  match header.getField "alg".toList with
  | none => "undefined".toList
  | some v => jsStr v

/-- Whether `header.alg !== 'EdDSA'`. -/
def algIsEdDSA (header : Json) : Bool :=
  match header.getField "alg".toList with
  | some (.str s) => s == "EdDSA".toList
  | _ => false

/-- The verification chain from the expiry check on, on the parsed payload;
the throwing `.exp` access on a null payload lands in the catch. -/
def verifyParsedPayload (verifyFn : List Nat → List Nat → List Nat → Bool) (now : Int)
    (encodedHeader encodedPayload encodedSignature : List Char) (payload : Json)
    (options : VerificationExpectations) : VerificationResult :=
  match expFails payload now with
  | .error _ => ⟨false, some "Verification error: TypeError".toList, none⟩
  | .ok true => ⟨false, some "Credential has expired".toList, none⟩
  | .ok false =>
      if issuerFails payload options then
        ⟨false, some "Issuer not allowed".toList, none⟩
      else if subjectFails payload options then
        ⟨false, some "Subject mismatch".toList, none⟩
      else
        match vcSubjectField payload "audience".toList with
        | .error _ => ⟨false, some "Verification error: TypeError".toList, none⟩
        | .ok credentialAudience =>
            if fieldMismatch credentialAudience options.expectedAudience then
              ⟨false, some "Audience mismatch".toList, none⟩
            else
              match vcSubjectField payload "domain".toList with
              | .error _ =>
                  ⟨false, some "Verification error: TypeError".toList, none⟩
              | .ok credentialDomain =>
                  if fieldMismatch credentialDomain options.expectedDomain then
                    ⟨false, some "Domain mismatch".toList, none⟩
                  else
                    match issuerPublicKey payload with
                    | .error e =>
                        ⟨false,
                          some ("Invalid issuer DID: Error: ".toList ++ e), none⟩
                    | .ok publicKey =>
                        if verifyFn
                            (strBytes (encodedHeader ++ '.' :: encodedPayload))
                            (base64urlToBytes encodedSignature) publicKey then
                          ⟨true, none, some payload⟩
                        else
                          ⟨false, some "Invalid signature".toList, none⟩

/-- The verification chain on the three segments: header decode, the
`header.alg` access (which throws on a null header, landing in the catch),
algorithm, payload decode, then `verifyParsedPayload`. -/
def verifySegments (verifyFn : List Nat → List Nat → List Nat → Bool) (now : Int)
    (encodedHeader encodedPayload encodedSignature : List Char)
    (options : VerificationExpectations) : VerificationResult :=
  match parseJson (bytesToStr (base64urlToBytes encodedHeader)) with
  | none => ⟨false, some "Invalid JWT header".toList, none⟩
  | some header =>
      if header.isNull then
        ⟨false, some "Verification error: TypeError".toList, none⟩
      else if !algIsEdDSA header then
        ⟨false, some ("Unsupported algorithm: ".toList ++ algShow header), none⟩
      else
        match parseJson (bytesToStr (base64urlToBytes encodedPayload)) with
        | none => ⟨false, some "Invalid JWT payload".toList, none⟩
        | some payload =>
            verifyParsedPayload verifyFn now encodedHeader encodedPayload
              encodedSignature payload options

/-- Model of `verifyCredential`: split on `.` (exactly three segments), then
run the segment chain. -/
def verifyCredential (verifyFn : List Nat → List Nat → List Nat → Bool) (now : Int)
    (jwt : List Char) (options : VerificationExpectations) : VerificationResult :=
  match splitOnDot jwt with
  | [encodedHeader, encodedPayload, encodedSignature] =>
      verifySegments verifyFn now encodedHeader encodedPayload encodedSignature options
  | _ => ⟨false, some "Invalid JWT format".toList, none⟩

/-! ### Pipeline lemmas: base64url round trip, byte/char maps, dot splitting. -/

theorem sextets_roundtrip : ∀ bs : List Nat, (∀ b ∈ bs, b < 256) →
    sextetsToBytes (bytesToSextets bs) = bs := by
  intro bs
  induction bs using bytesToSextets.induct with
  | case1 => intro _; rfl
  | case2 a =>
      intro h
      have ha : a < 256 := h a (by simp)
      show [a / 4 * 4 + a % 4 * 16 / 16] = [a]
      rw [Nat.mul_div_cancel _ (by omega : (0:Nat) < 16)]
      congr 1
      omega
  | case3 a b =>
      intro h
      have ha : a < 256 := h a (by simp)
      have hb : b < 256 := h b (by simp)
      show [a / 4 * 4 + (a % 4 * 16 + b / 16) / 16,
        (a % 4 * 16 + b / 16) % 16 * 16 + b % 16 * 4 / 4] = [a, b]
      rw [mul_add_div_eq (a % 4) (b / 16) 16 (by omega),
        mul_add_mod_eq (a % 4) (b / 16) 16 (by omega),
        Nat.mul_div_cancel _ (by omega : (0:Nat) < 4)]
      congr 2 <;> omega
  | case4 a b c rest ih =>
      intro h
      have ha : a < 256 := h a (by simp)
      have hb : b < 256 := h b (by simp)
      have hc : c < 256 := h c (by simp)
      show (a / 4 * 4 + (a % 4 * 16 + b / 16) / 16) ::
        ((a % 4 * 16 + b / 16) % 16 * 16 + (b % 16 * 4 + c / 64) / 4) ::
        ((b % 16 * 4 + c / 64) % 4 * 64 + c % 64) ::
        sextetsToBytes (bytesToSextets rest) = a :: b :: c :: rest
      rw [mul_add_div_eq (a % 4) (b / 16) 16 (by omega),
        mul_add_mod_eq (a % 4) (b / 16) 16 (by omega),
        mul_add_div_eq (b % 16) (c / 64) 4 (by omega),
        mul_add_mod_eq (b % 16) (c / 64) 4 (by omega),
        ih (fun x hx => h x (by simp [hx]))]
      congr 3 <;> omega

theorem sextets_lt : ∀ bs : List Nat, (∀ b ∈ bs, b < 256) →
    ∀ v ∈ bytesToSextets bs, v < 64 := by
  intro bs
  induction bs using bytesToSextets.induct with
  | case1 => intro _ v hv; cases hv
  | case2 a =>
      intro h v hv
      have ha : a < 256 := h a (by simp)
      rw [show bytesToSextets [a] = [a / 4, a % 4 * 16] from rfl] at hv
      have hv2 : v = a / 4 ∨ v = a % 4 * 16 := by simpa using hv
      rcases hv2 with rfl | rfl <;> omega
  | case3 a b =>
      intro h v hv
      have ha : a < 256 := h a (by simp)
      have hb : b < 256 := h b (by simp)
      rw [show bytesToSextets [a, b] =
        [a / 4, a % 4 * 16 + b / 16, b % 16 * 4] from rfl] at hv
      have hv2 : v = a / 4 ∨ v = a % 4 * 16 + b / 16 ∨ v = b % 16 * 4 := by
        simpa using hv
      rcases hv2 with rfl | rfl | rfl <;> omega
  | case4 a b c rest ih =>
      intro h v hv
      have ha : a < 256 := h a (by simp)
      have hb : b < 256 := h b (by simp)
      have hc : c < 256 := h c (by simp)
      rw [show bytesToSextets (a :: b :: c :: rest) =
        a / 4 :: (a % 4 * 16 + b / 16) :: (b % 16 * 4 + c / 64) :: (c % 64) ::
          bytesToSextets rest from rfl] at hv
      have hv2 : v = a / 4 ∨ v = a % 4 * 16 + b / 16 ∨ v = b % 16 * 4 + c / 64 ∨
          v = c % 64 ∨ v ∈ bytesToSextets rest := by
        simpa [List.mem_cons] using hv
      rcases hv2 with rfl | rfl | rfl | rfl | hv2
      · omega
      · omega
      · omega
      · omega
      · exact ih (fun x hx => h x (by simp [hx])) v hv2

theorem b64uValOf_b64uCharOf_fin : ∀ v : Fin 64, b64uValOf (b64uCharOf v.val) = v.val := by
  decide

theorem map_b64uVal_char (sx : List Nat) (h : ∀ v ∈ sx, v < 64) :
    (sx.map b64uCharOf).map b64uValOf = sx := by
  induction sx with
  | nil => rfl
  | cons v vs ih =>
      show b64uValOf (b64uCharOf v) :: (vs.map b64uCharOf).map b64uValOf = v :: vs
      rw [b64uValOf_b64uCharOf_fin ⟨v, h v (by simp)⟩,
        ih (fun x hx => h x (by simp [hx]))]

/-- Round trip of the unpadded url-safe base64 codec on byte strings. -/
theorem b64url_roundtrip (bs : List Nat) (h : ∀ b ∈ bs, b < 256) :
    base64urlToBytes (bytesToBase64url bs) = bs := by
  unfold base64urlToBytes bytesToBase64url
  rw [map_b64uVal_char _ (sextets_lt bs h), sextets_roundtrip bs h]

theorem bytesToStr_strBytes (s : List Char) : bytesToStr (strBytes s) = s := by
  induction s with
  | nil => rfl
  | cons c cs ih =>
      show Char.ofNat c.toNat :: bytesToStr (strBytes cs) = c :: cs
      rw [Char.ofNat_toNat, ih]

theorem b64uCharOf_ne_dot_fin : ∀ v : Fin 64, b64uCharOf v.val ≠ '.' := by decide

theorem b64uCharOf_ne_dot (v : Nat) : b64uCharOf v ≠ '.' := by
  by_cases h : v < 64
  · exact b64uCharOf_ne_dot_fin ⟨v, h⟩
  · unfold b64uCharOf
    rw [List.getD_eq_default _ _ (by
      rw [show b64uAlphabet.length = 64 from rfl]
      omega)]
    decide

theorem dot_not_mem_b64url (bs : List Nat) : '.' ∉ bytesToBase64url bs := by
  intro hmem
  obtain ⟨v, _, hv⟩ := List.mem_map.1 hmem
  exact b64uCharOf_ne_dot v hv

theorem splitOnDot_dotfree : ∀ s : List Char, '.' ∉ s → splitOnDot s = [s] := by
  intro s
  induction s with
  | nil => intro _; rfl
  | cons c rest ih =>
      intro h
      show (if c = '.' then [] :: splitOnDot rest else
        match splitOnDot rest with
        | [] => [[c]]
        | p :: ps => (c :: p) :: ps) = [c :: rest]
      rw [if_neg (by
        intro hc
        exact h (by simp [hc]))]
      rw [ih (fun hm => h (by simp [hm]))]

theorem splitOnDot_append : ∀ (a rest : List Char), '.' ∉ a →
    splitOnDot (a ++ '.' :: rest) = a :: splitOnDot rest := by
  intro a
  induction a with
  | nil =>
      intro rest _
      show (if '.' = '.' then [] :: splitOnDot rest else
        match splitOnDot rest with
        | [] => [['.']]
        | p :: ps => ('.' :: p) :: ps) = [] :: splitOnDot rest
      rw [if_pos rfl]
  | cons c cs ih =>
      intro rest h
      show (if c = '.' then [] :: splitOnDot (cs ++ '.' :: rest) else
        match splitOnDot (cs ++ '.' :: rest) with
        | [] => [[c]]
        | p :: ps => (c :: p) :: ps) = (c :: cs) :: splitOnDot rest
      rw [if_neg (by
        intro hc
        exact h (by simp [hc]))]
      rw [ih rest (fun hm => h (by simp [hm]))]

/-- Splitting a three-segment token with dot-free segments. -/
theorem splitOnDot_three (eh ep es : List Char)
    (h1 : '.' ∉ eh) (h2 : '.' ∉ ep) (h3 : '.' ∉ es) :
    splitOnDot (eh ++ '.' :: (ep ++ '.' :: es)) = [eh, ep, es] := by
  rw [splitOnDot_append eh _ h1, splitOnDot_append ep es h2,
    splitOnDot_dotfree es h3]

/-! ### Field lookups on the serialized header and payload objects. -/

theorem getField_payload_iss (e : List Char → Int) (n : Int) (c : VerifiableCredential) :
    (payloadJson e n c).getField "iss".toList = some (.str c.issuer) := by
  unfold payloadJson payloadExp Json.getField
  cases c.validUntil <;> rfl

theorem getField_payload_sub (e : List Char → Int) (n : Int) (c : VerifiableCredential) :
    (payloadJson e n c).getField "sub".toList = some (.str c.subjectId) := by
  unfold payloadJson payloadExp Json.getField
  cases c.validUntil <;> rfl

theorem getField_payload_vc (e : List Char → Int) (n : Int) (c : VerifiableCredential) :
    (payloadJson e n c).getField "vc".toList = some (credentialJson c) := by
  unfold payloadJson payloadExp Json.getField
  cases c.validUntil <;> rfl

theorem getField_payload_exp_none (e : List Char → Int) (n : Int)
    (c : VerifiableCredential) (hu : c.validUntil = none) :
    (payloadJson e n c).getField "exp".toList = none := by
  unfold payloadJson payloadExp Json.getField
  rw [hu]
  rfl

theorem getField_payload_exp_some (e : List Char → Int) (n : Int)
    (c : VerifiableCredential) (u : List Char) (hu : c.validUntil = some u) :
    (payloadJson e n c).getField "exp".toList = some (.num (e u)) := by
  unfold payloadJson payloadExp Json.getField
  rw [hu]
  rfl

theorem expFails_payload_none (e : List Char → Int) (n now : Int)
    (c : VerifiableCredential) (hu : c.validUntil = none) :
    expFails (payloadJson e n c) now = .ok false := by
  unfold expFails payloadJson payloadExp Json.getField
  rw [hu]
  rfl

theorem expFails_payload_some (e : List Char → Int) (n now : Int)
    (c : VerifiableCredential) (u : List Char) (hu : c.validUntil = some u) :
    expFails (payloadJson e n c) now =
      .ok (e u != 0 && decide (e u < now)) := by
  unfold expFails payloadJson payloadExp Json.getField
  rw [hu]
  rfl

theorem issuerPublicKey_payload (e : List Char → Int) (n : Int)
    (c : VerifiableCredential) :
    issuerPublicKey (payloadJson e n c) = didKeyToPublicKey c.issuer := by
  unfold issuerPublicKey
  rw [getField_payload_iss]

theorem vcSubjectField_payload (e : List Char → Int) (n : Int)
    (c : VerifiableCredential) (name : List Char) :
    vcSubjectField (payloadJson e n c) name =
      .ok (match (Json.obj (("id".toList, Json.str c.subjectId) ::
          c.subjectFields.map (fun f => (f.1, f.2.json)))).getField name with
        | some (.str s) => some s
        | _ => none) := by
  unfold vcSubjectField payloadJson payloadExp credentialJson Json.getField
  cases c.validUntil <;> rfl

theorem algIsEdDSA_header (issuer : List Char) :
    algIsEdDSA (headerJson issuer) = true := by rfl

theorem headerJson_not_null (issuer : List Char) :
    (headerJson issuer).isNull = false := rfl

theorem issuerFails_none (p : Json) : issuerFails p {} = false := rfl

theorem subjectFails_none (p : Json) : subjectFails p {} = false := rfl

theorem fieldMismatch_none (a : Option (List Char)) : fieldMismatch a none = false := rfl

/-! ### Stage-by-stage reductions of the verification chain. -/

theorem verifyCredential_three (vf : List Nat → List Nat → List Nat → Bool)
    (now : Int) (jwt eh ep es : List Char) (opts : VerificationExpectations)
    (h : splitOnDot jwt = [eh, ep, es]) :
    verifyCredential vf now jwt opts = verifySegments vf now eh ep es opts := by
  unfold verifyCredential
  rw [h]

theorem verifySegments_parsed (vf : List Nat → List Nat → List Nat → Bool)
    (now : Int) (eh ep es : List Char) (opts : VerificationExpectations) (h p : Json)
    (hh : parseJson (bytesToStr (base64urlToBytes eh)) = some h)
    (hn : h.isNull = false)
    (ha : algIsEdDSA h = true)
    (hp : parseJson (bytesToStr (base64urlToBytes ep)) = some p) :
    verifySegments vf now eh ep es opts =
      verifyParsedPayload vf now eh ep es p opts := by
  unfold verifySegments
  simp only [hh, hn, ha, hp, Bool.not_true, Bool.false_eq_true, if_false]

theorem verifyParsedPayload_expired (vf : List Nat → List Nat → List Nat → Bool)
    (now : Int) (eh ep es : List Char) (p : Json) (opts : VerificationExpectations)
    (hexp : expFails p now = .ok true) :
    verifyParsedPayload vf now eh ep es p opts =
      ⟨false, some "Credential has expired".toList, none⟩ := by
  unfold verifyParsedPayload
  simp only [hexp]

theorem verifyParsedPayload_success (vf : List Nat → List Nat → List Nat → Bool)
    (now : Int) (eh ep es : List Char) (p : Json) (opts : VerificationExpectations)
    (a d : Option (List Char)) (pk : List Nat)
    (hexp : expFails p now = .ok false)
    (hiss : issuerFails p opts = false)
    (hsub : subjectFails p opts = false)
    (hvc : vcSubjectField p "audience".toList = .ok a)
    (haud : fieldMismatch a opts.expectedAudience = false)
    (hvd : vcSubjectField p "domain".toList = .ok d)
    (hdom : fieldMismatch d opts.expectedDomain = false)
    (hpk : issuerPublicKey p = .ok pk)
    (hvf : vf (strBytes (eh ++ '.' :: ep)) (base64urlToBytes es) pk = true) :
    verifyParsedPayload vf now eh ep es p opts = ⟨true, none, some p⟩ := by
  unfold verifyParsedPayload
  simp only [hexp, hiss, hsub, hvc, haud, hvd, hdom, hpk, hvf, Bool.false_eq_true,
    if_false, if_true]

/-! ### The signed token through the verifier. -/

theorem signCredential_eq (signFn : List Nat → List Nat → List Nat → List Nat)
    (epochOf : List Char → Int) (now : Int) (c : VerifiableCredential)
    (priv pub : List Nat) :
    signCredential signFn epochOf now c priv pub =
      bytesToBase64url (strBytes (headerChars c.issuer)) ++
        '.' :: (bytesToBase64url (strBytes (payloadChars epochOf now c)) ++
          '.' :: bytesToBase64url (signFn
            (strBytes (bytesToBase64url (strBytes (headerChars c.issuer)) ++
              '.' :: bytesToBase64url (strBytes (payloadChars epochOf now c))))
            priv pub)) := by
  unfold signCredential
  rw [← List.cons_append, ← List.append_assoc]

theorem splitOnDot_signCredential (signFn : List Nat → List Nat → List Nat → List Nat)
    (epochOf : List Char → Int) (now : Int) (c : VerifiableCredential)
    (priv pub : List Nat) :
    splitOnDot (signCredential signFn epochOf now c priv pub) =
      [bytesToBase64url (strBytes (headerChars c.issuer)),
       bytesToBase64url (strBytes (payloadChars epochOf now c)),
       bytesToBase64url (signFn
         (strBytes (bytesToBase64url (strBytes (headerChars c.issuer)) ++
           '.' :: bytesToBase64url (strBytes (payloadChars epochOf now c))))
         priv pub)] := by
  rw [signCredential_eq]
  exact splitOnDot_three _ _ _ (dot_not_mem_b64url _) (dot_not_mem_b64url _)
    (dot_not_mem_b64url _)

theorem strBytes_lt (s : List Char) (h : ∀ ch ∈ s, ch.toNat < 256) :
    ∀ b ∈ strBytes s, b < 256 := by
  intro b hb
  obtain ⟨ch, hch, rfl⟩ := List.mem_map.1 hb
  exact h ch hch

theorem segment_decodes (s : List Char) (h : ∀ ch ∈ s, ch.toNat < 256) :
    bytesToStr (base64urlToBytes (bytesToBase64url (strBytes s))) = s := by
  rw [b64url_roundtrip _ (strBytes_lt s h), bytesToStr_strBytes]

theorem verifySegments_sign (vf : List Nat → List Nat → List Nat → Bool)
    (now : Int) (epochOf : List Char → Int) (now0 : Int) (c : VerifiableCredential)
    (es : List Char) (opts : VerificationExpectations)
    (hhb : ∀ ch ∈ headerChars c.issuer, ch.toNat < 256)
    (hpb : ∀ ch ∈ payloadChars epochOf now0 c, ch.toNat < 256)
    (hhp : parseJson (headerChars c.issuer) = some (headerJson c.issuer))
    (hpp : parseJson (payloadChars epochOf now0 c) =
      some (payloadJson epochOf now0 c)) :
    verifySegments vf now (bytesToBase64url (strBytes (headerChars c.issuer)))
      (bytesToBase64url (strBytes (payloadChars epochOf now0 c))) es opts =
    verifyParsedPayload vf now (bytesToBase64url (strBytes (headerChars c.issuer)))
      (bytesToBase64url (strBytes (payloadChars epochOf now0 c))) es
      (payloadJson epochOf now0 c) opts := by
  exact verifySegments_parsed vf now _ _ es opts (headerJson c.issuer)
    (payloadJson epochOf now0 c) (by rw [segment_decodes _ hhb, hhp])
    (headerJson_not_null c.issuer) (algIsEdDSA_header c.issuer)
    (by rw [segment_decodes _ hpb, hpp])

/-! ### Shape of every verification result: a failure always carries a reason,
a success carries the payload and no reason (the model of "never throws"). -/

theorem verifyParsedPayload_shape (vf : List Nat → List Nat → List Nat → Bool)
    (now : Int) (eh ep es : List Char) (p : Json) (opts : VerificationExpectations) :
    ((verifyParsedPayload vf now eh ep es p opts).valid = true ∧
      (verifyParsedPayload vf now eh ep es p opts).reason = none) ∨
    ((verifyParsedPayload vf now eh ep es p opts).valid = false ∧
      (verifyParsedPayload vf now eh ep es p opts).reason.isSome = true) := by
  unfold verifyParsedPayload
  split
  · right; exact ⟨rfl, rfl⟩
  · right; exact ⟨rfl, rfl⟩
  · split
    · right; exact ⟨rfl, rfl⟩
    · split
      · right; exact ⟨rfl, rfl⟩
      · split
        · right; exact ⟨rfl, rfl⟩
        · split
          · right; exact ⟨rfl, rfl⟩
          · split
            · right; exact ⟨rfl, rfl⟩
            · split
              · right; exact ⟨rfl, rfl⟩
              · split
                · right; exact ⟨rfl, rfl⟩
                · split
                  · left; exact ⟨rfl, rfl⟩
                  · right; exact ⟨rfl, rfl⟩

theorem verifySegments_shape (vf : List Nat → List Nat → List Nat → Bool)
    (now : Int) (eh ep es : List Char) (opts : VerificationExpectations) :
    ((verifySegments vf now eh ep es opts).valid = true ∧
      (verifySegments vf now eh ep es opts).reason = none) ∨
    ((verifySegments vf now eh ep es opts).valid = false ∧
      (verifySegments vf now eh ep es opts).reason.isSome = true) := by
  unfold verifySegments
  split
  · right; exact ⟨rfl, rfl⟩
  · split
    · right; exact ⟨rfl, rfl⟩
    · split
      · right; exact ⟨rfl, rfl⟩
      · split
        · right; exact ⟨rfl, rfl⟩
        · exact verifyParsedPayload_shape vf now eh ep es _ opts

/-- Once the expiry check has passed, no later stage of the chain can report
the expiry reason: every later reason string is distinct from it. -/
theorem verifyParsedPayload_reason_ne_expired
    (vf : List Nat → List Nat → List Nat → Bool) (now : Int)
    (eh ep es : List Char) (p : Json) (opts : VerificationExpectations)
    (hexp : expFails p now = .ok false) :
    (verifyParsedPayload vf now eh ep es p opts).reason ≠
      some "Credential has expired".toList := by
  unfold verifyParsedPayload
  simp only [hexp]
  split
  · intro h; exact absurd (Option.some.inj h) (by decide)
  · split
    · intro h; exact absurd (Option.some.inj h) (by decide)
    · split
      · intro h; exact absurd (Option.some.inj h) (by decide)
      · split
        · intro h; exact absurd (Option.some.inj h) (by decide)
        · split
          · intro h; exact absurd (Option.some.inj h) (by decide)
          · split
            · intro h; exact absurd (Option.some.inj h) (by decide)
            · split
              · rename_i msg hmsg
                intro h
                have h2 := Option.some.inj h
                have h3 : ('I' :: ("nvalid issuer DID: Error: ".toList ++ msg) :
                    List Char) = 'C' :: "redential has expired".toList := h2
                simp at h3
              · split
                · intro h; exact Option.noConfusion h
                · intro h; exact absurd (Option.some.inj h) (by decide)

/-! ### Helpers for the single-byte-flip experiment. -/

theorem set_at_prefix_length {α : Type} (pre rest : List α) (y : α) :
    (pre ++ rest).set pre.length y = pre ++ rest.set 0 y := by
  induction pre with
  | nil => rfl
  | cons x xs ih =>
      show x :: (xs ++ rest).set xs.length y = x :: (xs ++ rest.set 0 y)
      rw [ih]

theorem bytesToSextets_ne_nil (bs : List Nat) (h : bs ≠ []) :
    bytesToSextets bs ≠ [] := by
  match bs with
  | [] => exact absurd rfl h
  | [a] => exact fun hc => List.noConfusion hc
  | [a, b] => exact fun hc => List.noConfusion hc
  | a :: b :: c :: rest => exact fun hc => List.noConfusion hc

theorem bytesToBase64url_ne_nil (bs : List Nat) (h : bs ≠ []) :
    bytesToBase64url bs ≠ [] := by
  unfold bytesToBase64url
  intro hc
  exact bytesToSextets_ne_nil bs h (List.map_eq_nil_iff.1 hc)

theorem payloadChars_ne_nil (e : List Char → Int) (n : Int)
    (c : VerifiableCredential) : payloadChars e n c ≠ [] := by
  unfold payloadChars
  intro hc
  exact List.noConfusion hc

theorem strBytes_ne_nil (s : List Char) (h : s ≠ []) : strBytes s ≠ [] := by
  unfold strBytes
  intro hc
  exact h (List.map_eq_nil_iff.1 hc)

theorem verifyCredential_shape (vf : List Nat → List Nat → List Nat → Bool)
    (now : Int) (jwt : List Char) (opts : VerificationExpectations) :
    ((verifyCredential vf now jwt opts).valid = true ∧
      (verifyCredential vf now jwt opts).reason = none) ∨
    ((verifyCredential vf now jwt opts).valid = false ∧
      (verifyCredential vf now jwt opts).reason.isSome = true) := by
  unfold verifyCredential
  split
  · exact verifySegments_shape vf now _ _ _ opts
  · right; exact ⟨rfl, rfl⟩

/-! ### Concrete fixtures for the verification-engine claims. -/

/-- Issuer DID of the all-zero Ed25519 test key. -/
def issuerT : List Char :=
  "did:key:z".toList ++ b58Encode (0xed :: 0x01 :: List.replicate 32 0)

/-- A concrete credential with no expiry. -/
def cTest : VerifiableCredential :=
  ⟨["https://www.w3.org/ns/credentials/v2".toList],
   ["VerifiableCredential".toList, "AgentOwnershipCredential".toList],
   issuerT, "2024-01-01T00:00:00Z".toList, "did:key:zAgent".toList, [], none⟩

/-- The same credential expiring exactly at the Unix epoch (`exp` serializes
to the number 0). -/
def cTestEpoch : VerifiableCredential :=
  { cTest with validUntil := some "1970-01-01T00:00:00.000Z".toList }

/-- The same credential with an ordinary past expiry (epoch second 10^9). -/
def cTestPast : VerifiableCredential :=
  { cTest with validUntil := some "2001-09-09T01:46:40.000Z".toList }

/-- A concrete signed token over `cTest` with stubbed crypto. -/
def tokT : List Char :=
  signCredential (fun _ _ _ => List.replicate 64 0) (fun _ => 0) 0 cTest []
    (List.replicate 32 0)

/-- C3: every verification result is a returned value — a success carries no
reason and a failure carries one (nothing escapes the catch) — and a token
produced by signCredential, under the byte-bound, parse-round-trip,
signature-byte, issuer-key and signature-acceptance assumptions, verifies as
valid with the parsed payload whenever its expiry does not fail (no
validUntil, or a validUntil whose epoch second is 0 or not in the past), and
fails with the expiry reason when the validUntil epoch second is nonzero and
in the past. -/
theorem credential_sign_verify_c3 :
    (∀ (vf : List Nat → List Nat → List Nat → Bool) (now : Int) (jwt : List Char)
        (opts : VerificationExpectations),
      ((verifyCredential vf now jwt opts).valid = true ∧
        (verifyCredential vf now jwt opts).reason = none) ∨
      ((verifyCredential vf now jwt opts).valid = false ∧
        (verifyCredential vf now jwt opts).reason.isSome = true)) ∧
    (∀ (sf : List Nat → List Nat → List Nat → List Nat)
        (vf : List Nat → List Nat → List Nat → Bool)
        (e : List Char → Int) (n0 now : Int) (c : VerifiableCredential)
        (priv pub : List Nat),
      (∀ ch ∈ headerChars c.issuer, ch.toNat < 256) →
      (∀ ch ∈ payloadChars e n0 c, ch.toNat < 256) →
      parseJson (headerChars c.issuer) = some (headerJson c.issuer) →
      parseJson (payloadChars e n0 c) = some (payloadJson e n0 c) →
      (∀ b ∈ sf (strBytes (bytesToBase64url (strBytes (headerChars c.issuer)) ++
        '.' :: bytesToBase64url (strBytes (payloadChars e n0 c)))) priv pub,
        b < 256) →
      (∀ u, c.validUntil = some u → e u = 0 ∨ now ≤ e u) →
      didKeyToPublicKey c.issuer = .ok pub →
      vf (strBytes (bytesToBase64url (strBytes (headerChars c.issuer)) ++
          '.' :: bytesToBase64url (strBytes (payloadChars e n0 c))))
        (sf (strBytes (bytesToBase64url (strBytes (headerChars c.issuer)) ++
          '.' :: bytesToBase64url (strBytes (payloadChars e n0 c)))) priv pub)
        pub = true →
      verifyCredential vf now (signCredential sf e n0 c priv pub) {} =
        ⟨true, none, some (payloadJson e n0 c)⟩) ∧
    (∀ (sf : List Nat → List Nat → List Nat → List Nat)
        (vf : List Nat → List Nat → List Nat → Bool)
        (e : List Char → Int) (n0 now : Int) (c : VerifiableCredential)
        (priv pub : List Nat) (u : List Char),
      (∀ ch ∈ headerChars c.issuer, ch.toNat < 256) →
      (∀ ch ∈ payloadChars e n0 c, ch.toNat < 256) →
      parseJson (headerChars c.issuer) = some (headerJson c.issuer) →
      parseJson (payloadChars e n0 c) = some (payloadJson e n0 c) →
      c.validUntil = some u → e u ≠ 0 → e u < now →
      verifyCredential vf now (signCredential sf e n0 c priv pub) {} =
        ⟨false, some "Credential has expired".toList, none⟩) := by
  refine ⟨verifyCredential_shape, ?_, ?_⟩
  · intro sf vf e n0 now c priv pub hhb hpb hhp hpp hsb hexp hpk hvf
    have hexp2 : expFails (payloadJson e n0 c) now = .ok false := by
      cases hu : c.validUntil with
      | none => exact expFails_payload_none e n0 now c hu
      | some u =>
          rw [expFails_payload_some e n0 now c u hu]
          rcases hexp u hu with h0 | hge
          · rw [h0]
            rfl
          · have hnl : ¬(e u < now) := not_lt.2 hge
            simp [hnl]
    rw [verifyCredential_three _ _ _ _ _ _ {}
      (splitOnDot_signCredential sf e n0 c priv pub)]
    rw [verifySegments_sign vf now e n0 c _ {} hhb hpb hhp hpp]
    refine verifyParsedPayload_success vf now _ _ _ _ {} _ _ pub hexp2
      (issuerFails_none _) (subjectFails_none _) (vcSubjectField_payload e n0 c _)
      (fieldMismatch_none _) (vcSubjectField_payload e n0 c _)
      (fieldMismatch_none _) ?_ ?_
    · rw [issuerPublicKey_payload]
      exact hpk
    · rw [b64url_roundtrip _ hsb]
      exact hvf
  · intro sf vf e n0 now c priv pub u hhb hpb hhp hpp hu hne hlt
    rw [verifyCredential_three _ _ _ _ _ _ {}
      (splitOnDot_signCredential sf e n0 c priv pub)]
    rw [verifySegments_sign vf now e n0 c _ {} hhb hpb hhp hpp]
    refine verifyParsedPayload_expired vf now _ _ _ _ {} ?_
    rw [expFails_payload_some e n0 now c u hu]
    simp [hne, hlt]

set_option maxRecDepth 1000000 in
/-- Counterexample to the byte-flip clause of C3: setting the first byte of
the payload segment of a concrete signed token to a dot yields a fourth
segment, so verification fails with the format reason, not with the claimed
signature reason. -/
theorem credential_sign_verify_c3_counterexample :
    tokT.set ((bytesToBase64url (strBytes (headerChars cTest.issuer))).length + 1)
        '.' ≠ tokT ∧
    (verifyCredential (fun _ _ _ => true) 0
      (tokT.set ((bytesToBase64url (strBytes (headerChars cTest.issuer))).length
        + 1) '.') {}).valid = false ∧
    (verifyCredential (fun _ _ _ => true) 0
      (tokT.set ((bytesToBase64url (strBytes (headerChars cTest.issuer))).length
        + 1) '.') {}).reason = some "Invalid JWT format".toList ∧
    "Invalid JWT format".toList ≠ "Invalid signature".toList := by
  exact ⟨by decide, by decide, by decide, by decide⟩

set_option maxRecDepth 1000000 in
/-- Witness for C3 at a concrete input: the concrete credential cTest signed
with stubbed crypto verifies as valid, with both serialization/parse round
trips checked concretely. -/
theorem credential_sign_verify_c3_witness :
    parseJson (headerChars cTest.issuer) = some (headerJson cTest.issuer) ∧
    parseJson (payloadChars (fun _ => 0) 0 cTest) =
      some (payloadJson (fun _ => 0) 0 cTest) ∧
    verifyCredential (fun _ _ _ => true) 0
      (signCredential (fun _ _ _ => List.replicate 64 0) (fun _ => 0) 0 cTest []
        (List.replicate 32 0)) {} =
      ⟨true, none, some (payloadJson (fun _ => 0) 0 cTest)⟩ :=
  ⟨by rfl, by rfl,
    credential_sign_verify_c3.2.1 (fun _ _ _ => List.replicate 64 0)
      (fun _ _ _ => true) (fun _ => 0) 0 0 cTest [] (List.replicate 32 0)
      (by decide) (by decide) (by rfl) (by rfl) (by decide)
      (by intro u h; simp [cTest] at h) (by rfl) (by rfl)⟩

/-- C4: on a signed token whose credential's validUntil serializes to a
nonzero epoch second in the past, verification fails with the expiry reason
under any expectations; and on a token whose credential has no validUntil the
result never carries the expiry reason. The nonzero proviso is the correction:
an exp of exactly 0 is falsy in JavaScript and skips the expiry check. -/
theorem credential_expiry_c4 :
    (∀ (sf : List Nat → List Nat → List Nat → List Nat)
        (vf : List Nat → List Nat → List Nat → Bool)
        (e : List Char → Int) (n0 now : Int) (c : VerifiableCredential)
        (priv pub : List Nat) (u : List Char) (opts : VerificationExpectations),
      (∀ ch ∈ headerChars c.issuer, ch.toNat < 256) →
      (∀ ch ∈ payloadChars e n0 c, ch.toNat < 256) →
      parseJson (headerChars c.issuer) = some (headerJson c.issuer) →
      parseJson (payloadChars e n0 c) = some (payloadJson e n0 c) →
      c.validUntil = some u → e u ≠ 0 → e u < now →
      verifyCredential vf now (signCredential sf e n0 c priv pub) opts =
        ⟨false, some "Credential has expired".toList, none⟩) ∧
    (∀ (sf : List Nat → List Nat → List Nat → List Nat)
        (vf : List Nat → List Nat → List Nat → Bool)
        (e : List Char → Int) (n0 now : Int) (c : VerifiableCredential)
        (priv pub : List Nat) (opts : VerificationExpectations),
      (∀ ch ∈ headerChars c.issuer, ch.toNat < 256) →
      (∀ ch ∈ payloadChars e n0 c, ch.toNat < 256) →
      parseJson (headerChars c.issuer) = some (headerJson c.issuer) →
      parseJson (payloadChars e n0 c) = some (payloadJson e n0 c) →
      c.validUntil = none →
      (verifyCredential vf now (signCredential sf e n0 c priv pub) opts).reason ≠
        some "Credential has expired".toList) := by
  constructor
  · intro sf vf e n0 now c priv pub u opts hhb hpb hhp hpp hu hne hlt
    rw [verifyCredential_three _ _ _ _ _ _ opts
      (splitOnDot_signCredential sf e n0 c priv pub)]
    rw [verifySegments_sign vf now e n0 c _ opts hhb hpb hhp hpp]
    refine verifyParsedPayload_expired vf now _ _ _ _ opts ?_
    rw [expFails_payload_some e n0 now c u hu]
    simp [hne, hlt]
  · intro sf vf e n0 now c priv pub opts hhb hpb hhp hpp hu
    rw [verifyCredential_three _ _ _ _ _ _ opts
      (splitOnDot_signCredential sf e n0 c priv pub)]
    rw [verifySegments_sign vf now e n0 c _ opts hhb hpb hhp hpp]
    exact verifyParsedPayload_reason_ne_expired vf now _ _ _ _ opts
      (expFails_payload_none e n0 now c hu)

set_option maxRecDepth 1000000 in
/-- Counterexample to C4 as claimed: a credential expiring exactly at the
Unix epoch has exp 0, which is in the past of verification time 2000000000,
yet the token verifies as valid — JavaScript's `payload.exp &&` guard treats
the number 0 as false and skips the expiry check. -/
theorem credential_expiry_c4_counterexample :
    cTestEpoch.validUntil = some "1970-01-01T00:00:00.000Z".toList ∧
    ((fun _ => (0 : Int)) "1970-01-01T00:00:00.000Z".toList) < 2000000000 ∧
    verifyCredential (fun _ _ _ => true) 2000000000
      (signCredential (fun _ _ _ => List.replicate 64 0) (fun _ => 0) 0
        cTestEpoch [] (List.replicate 32 0)) {} =
      ⟨true, none, some (payloadJson (fun _ => 0) 0 cTestEpoch)⟩ := by
  refine ⟨rfl, by decide, ?_⟩
  rw [verifyCredential_three _ _ _ _ _ _ {}
    (splitOnDot_signCredential (fun _ _ _ => List.replicate 64 0) (fun _ => 0) 0
      cTestEpoch [] (List.replicate 32 0))]
  rw [verifySegments_sign (fun _ _ _ => true) 2000000000 (fun _ => 0) 0 cTestEpoch
    _ {} (by decide) (by decide) (by rfl) (by rfl)]
  refine verifyParsedPayload_success (fun _ _ _ => true) 2000000000 _ _ _ _ {} _ _
    (List.replicate 32 0) (by rfl) (issuerFails_none _) (subjectFails_none _)
    (vcSubjectField_payload (fun _ => 0) 0 cTestEpoch _) (fieldMismatch_none _)
    (vcSubjectField_payload (fun _ => 0) 0 cTestEpoch _) (fieldMismatch_none _)
    ?_ (by rfl)
  rw [issuerPublicKey_payload]
  rfl

set_option maxRecDepth 1000000 in
/-- Witness for C4 at a concrete input: a credential with a past, nonzero
expiry epoch second fails verification with the expiry reason, and the same
credential without validUntil is checked concretely by the second clause. -/
theorem credential_expiry_c4_witness :
    cTestPast.validUntil = some "2001-09-09T01:46:40.000Z".toList ∧
    ((fun _ => (1000000000 : Int)) "2001-09-09T01:46:40.000Z".toList) ≠ 0 ∧
    ((fun _ => (1000000000 : Int)) "2001-09-09T01:46:40.000Z".toList) <
      2000000000 ∧
    verifyCredential (fun _ _ _ => true) 2000000000
      (signCredential (fun _ _ _ => List.replicate 64 0) (fun _ => 1000000000) 0
        cTestPast [] (List.replicate 32 0)) {} =
      ⟨false, some "Credential has expired".toList, none⟩ :=
  ⟨rfl, by decide, by decide,
    credential_expiry_c4.1 (fun _ _ _ => List.replicate 64 0) (fun _ _ _ => true)
      (fun _ => 1000000000) 0 2000000000 cTestPast [] (List.replicate 32 0)
      "2001-09-09T01:46:40.000Z".toList {} (by decide) (by decide) (by rfl)
      (by rfl) rfl (by decide) (by decide)⟩

end AgentDid
